import Mathlib

/-! # The Songkick calendar client (Go package `shows`)

A shallow embedding of `shows/event.go`, `shows/songkick.go` and `shows/shows.go`.

* Go `int` is a 64-bit two's-complement integer: it is an `Int` here, and every
  arithmetic result the code computes is passed through `wrap64`.
* Go `error` values are their messages (`String`); a nil error or slice is `none`.
* `net/http` and `encoding/json` are outside the repository: the transport and the
  generic decoder are parameters (`httpGet`, `jsonUnmarshal`).  The transport may also
  never answer.
* `Calendar.get` runs a controller loop and a worker goroutine that talk over
  unbuffered channels.  It is embedded as a guarded transition system: `step` fires one
  communication (both ends of a channel operation at once) or one `select` case, and a
  schedule, a list of actions, is one interleaving.  Time is not modelled: the timer of
  a `select` may fire whenever the controller waits there, which covers every real
  timing.  `patient` singles out the runs in which it fires only while no other case of
  the `select` is ready; the one concrete run that is not of this kind,
  `stalledSchedule`, says so.
* `Calendar.All` is embedded the same way, over the outcomes of its two sub-fetches.
-/

namespace shows

/-! ## Machine integers and library types -/

/-- Two's-complement wrap of an integer to the range of a Go `int` (64 bits). -/
def wrap64 (x : Int) : Int :=
  (x + 9223372036854775808) % 18446744073709551616 - 9223372036854775808

/-- A Go `float32`, kept as its bit pattern: the code only copies these values. -/
structure float32 where
  bits : Nat
  deriving DecidableEq, Repr

/-- A Go `time.Time`: the instant in nanoseconds since January 1, year 1, 00:00:00 UTC
(the zero value of the type) and the offset of its zone in seconds. -/
structure Time where
  nanos : Int
  zone : Int
  deriving DecidableEq, Repr

/-- The zero value of `time.Time`. -/
def Time.zero : Time := ⟨0, 0⟩

/-- Go `Time.IsZero`: the instant is January 1, year 1, 00:00:00 UTC. -/
def Time.IsZero (t : Time) : Bool := decide (t.nanos = 0)

/-- The smallest `time.Duration` (an int64 count of nanoseconds). -/
def minDuration : Int := -9223372036854775808

/-- The largest `time.Duration`. -/
def maxDuration : Int := 9223372036854775807

/-- Go `Time.Sub`: the duration `t - u`, saturated at the ends of the `Duration` range. -/
def Time.Sub (t u : Time) : Int :=
  if t.nanos - u.nanos < minDuration then minDuration
  else if t.nanos - u.nanos > maxDuration then maxDuration
  else t.nanos - u.nanos

/-- Raw bytes of a response body. -/
abbrev Bytes := List Nat

/-! ## event.go -/

/-- The `EventType` enumeration (`iota` order). -/
inductive EventType where
  | Festival
  | Concert
  | ListeningRoom
  | Club
  deriving DecidableEq, Repr

/-- Roughly matches schema.org PostalAddress. -/
structure Address where
  AddressCountry : String
  AddressLocality : String
  AddressRegion : String
  PostalCode : String
  PostOfficeBoxNumber : String
  StreetAddress : String
  deriving DecidableEq, Repr

/-- Roughly matches schema.org GeoCoordinates. -/
structure GeoCoordinates where
  Lat : float32
  Lng : float32
  Elevation : Int
  deriving DecidableEq, Repr

/-- Roughly matches schema.org Place. -/
structure Place where
  Description : String
  Image : String
  Name : String
  SameAs : String
  URL : List String
  Address : Address
  Geo : GeoCoordinates
  Telephone : String
  deriving DecidableEq, Repr

/-- Roughly matches schema.org MusicGroup. -/
structure MusicGroup where
  Description : String
  Image : String
  Name : String
  SameAs : String
  URL : List String
  deriving DecidableEq, Repr

/-- The domain event; the field `Type` of the source is `Type_` (a reserved word here). -/
structure Event where
  Description : String
  Image : String
  Name : String
  SameAs : String
  URL : List String
  Duration : Int
  EndDate : Time
  StartDate : Time
  Location : Place
  Performer : List MusicGroup
  Type_ : EventType
  deriving DecidableEq, Repr

/-! ## songkick.go: wire records -/

/-- Wire record `skIdentifier`. -/
structure skIdentifier where
  HREF : String
  MBID : String
  deriving DecidableEq, Repr

/-- Wire record `skArtist`. -/
structure skArtist where
  ID : Int
  URI : String
  DisplayName : String
  Identifier : List skIdentifier
  deriving DecidableEq, Repr

/-- Wire record `skPerformance`. -/
structure skPerformance where
  ID : Int
  Artist : skArtist
  DisplayName : String
  BillingIndex : Int
  Billing : String
  deriving DecidableEq, Repr

/-- Wire record `skLocation`. -/
structure skLocation where
  City : String
  Lat : float32
  Lng : float32
  deriving DecidableEq, Repr

/-- Wire record `skMetroArea`; `Country` and `State` carry one `displayName` each. -/
structure skMetroArea where
  ID : Int
  URI : String
  DisplayName : String
  CountryDisplayName : String
  StateDisplayName : String
  deriving DecidableEq, Repr

/-- Wire record `skVenue`. -/
structure skVenue where
  ID : Int
  DisplayName : String
  URI : String
  MetroArea : skMetroArea
  Lat : float32
  Lng : float32
  deriving DecidableEq, Repr

/-- Wire record `skEvent`; `skDate` is a `time.Time`, `Series` carries one `displayName`. -/
structure skEvent where
  ID : Int
  Type_ : String
  URI : String
  DisplayName : String
  Start : Time
  End : Time
  Performance : List skPerformance
  Location : skLocation
  Venue : skVenue
  Popularity : float32
  SeriesDisplayName : String
  deriving DecidableEq, Repr

/-- The conversion `skEvent.Event()` of songkick.go, lines 32-82. -/
def skEvent.Event (ske : skEvent) : shows.Event :=
  { Description := ""
    Image := ""
    Name := ske.DisplayName
    SameAs := ske.URI
    URL := [ske.URI]
    StartDate := ske.Start
    EndDate := ske.End
    Duration :=
      if !ske.Start.IsZero && !ske.End.IsZero then ske.End.Sub ske.Start else 0
    Location :=
      { Description := ""
        Image := ""
        Name := ske.Venue.DisplayName
        SameAs := ske.Venue.URI
        URL := [ske.Venue.URI]
        Geo := { Lat := ske.Venue.Lat, Lng := ske.Venue.Lng, Elevation := 0 }
        Address :=
          { AddressCountry := ske.Venue.MetroArea.CountryDisplayName
            AddressRegion := ske.Venue.MetroArea.StateDisplayName
            AddressLocality := ske.Venue.MetroArea.DisplayName
            PostalCode := ""
            PostOfficeBoxNumber := ""
            StreetAddress := "" }
        Telephone := "" }
    Performer :=
      ske.Performance.map fun i =>
        { Description := "", Image := "", Name := i.Artist.DisplayName,
          SameAs := i.Artist.URI, URL := [i.Artist.URI] }
    Type_ :=
      if ske.Type_ = "Concert" then EventType.Concert
      else if ske.Type_ = "Festival" then EventType.Festival
      else EventType.Concert }

/-! ## songkick.go: the page cursor -/

/-- The cursor `skArtistCalendar`. -/
structure skArtistCalendar where
  Events : List skEvent
  TotalEntries : Int
  PerPage : Int
  Page : Int
  Endpoint : String
  deriving DecidableEq, Repr

/-- The anonymous struct `tmp` that `skArtistCalendar.UnmarshalJSON` decodes into
(`resultsPage.results.event`, `totalEntries`, `perPage`, `page`). -/
structure resultsPage where
  Event : List skEvent
  TotalEntries : Int
  PerPage : Int
  Page : Int
  deriving DecidableEq, Repr

/-- Lines 168-187: decode into `tmp` with the generic decoder, then overwrite the four
fields of the cursor; on a decoding error the cursor is not produced. -/
def skArtistCalendar.UnmarshalJSON (jsonUnmarshal : Bytes → Except String resultsPage)
    (ac : skArtistCalendar) (data : Bytes) : Except String skArtistCalendar :=
  match jsonUnmarshal data with
  | .error err => .error err
  | .ok tmp =>
    .ok { ac with
          Events := tmp.Event
          TotalEntries := tmp.TotalEntries
          PerPage := tmp.PerPage
          Page := tmp.Page }

/-- Lines 190-196: the count of events polled so far. -/
def skArtistCalendar.count (ac : skArtistCalendar) : Int :=
  let count := wrap64 (ac.PerPage * ac.Page)
  if count > ac.TotalEntries then ac.TotalEntries else count

/-- Message of the error for a cursor without endpoint. -/
def ErrorNoEndpoint : String := "skArtistCalendar must have a URL Endpoint"

/-- Message of the error for an exhausted cursor. -/
def ErrorNoMoreEvents : String := "skArtistCalendar has retrieved all events"

/-- What `http.Get` does with one request. -/
inductive httpReply where
  /-- The call never returns. -/
  | never
  /-- The call returns a non-nil error. -/
  | fail (e : String)
  /-- The call returns a response: status code, status text, and the outcome of
  reading the body. -/
  | response (statusCode : Nat) (status : String) (body : Except String Bytes)

/-- One execution of `skArtistCalendar.next`: the URLs handed to `http.Get`, in order,
and the returned pair (`none` when the call never returns). -/
structure nextRun where
  requests : List String
  result : Option (Except String skArtistCalendar)

/-- Lines 217-220: the URL requested for a cursor whose page is already incremented. -/
def skArtistCalendar.url (ac : skArtistCalendar) : String :=
  if ac.PerPage > 0 then
    ac.Endpoint ++ ("&page=" ++ toString ac.Page ++ "&per_page=" ++ toString ac.PerPage)
  else ac.Endpoint

/-- Lines 208-248: `skArtistCalendar.next`. -/
def skArtistCalendar.next (httpGet : String → httpReply)
    (jsonUnmarshal : Bytes → Except String resultsPage) (ac : skArtistCalendar) : nextRun :=
  if ac.Endpoint.length < 1 then
    ⟨[], some (.error ErrorNoEndpoint)⟩
  else if ac.count = ac.TotalEntries ∧ ac.Page > 0 then
    ⟨[], some (.error ErrorNoMoreEvents)⟩
  else
    let ac := { ac with Page := wrap64 (ac.Page + 1) }
    let url := ac.url
    match httpGet url with
    | .never => ⟨[url], none⟩
    | .fail e => ⟨[url], some (.error e)⟩
    | .response statusCode status body =>
      if statusCode ≠ 200 then ⟨[url], some (.error ("API Error:" ++ status))⟩
      else
        match body with
        | .error err => ⟨[url], some (.error err)⟩
        | .ok data => ⟨[url], some (ac.UnmarshalJSON jsonUnmarshal data)⟩

/-- The pair `skResponse` the worker sends back: `Cal` and `Err` may each be nil. -/
structure skResponse where
  Cal : Option skArtistCalendar
  Err : Option String
  deriving DecidableEq, Repr

/-! ## shows.go: the calendar -/

/-- The base of every request URL. -/
def apiBaseURL : String := "http://api.songkick.com/api/3.0/artists/"

/-- The Songkick artist calendar. -/
structure Calendar where
  artistID : Int
  apiKey : String
  deriving DecidableEq, Repr

/-- Lines 25-35: `New` (with `Init`). -/
def New (artistID : Int) (apiKey : String) : Calendar := ⟨artistID, apiKey⟩

/-- Line 80: the URL `Upcoming` hands to `get`. -/
def Calendar.upcomingURL (c : Calendar) : String :=
  apiBaseURL ++ toString c.artistID ++ "/calendar.json?order=asc&apikey=" ++ c.apiKey

/-- Line 85: the URL `Past` hands to `get`. -/
def Calendar.pastURL (c : Calendar) : String :=
  apiBaseURL ++ toString c.artistID ++ "/gigography.json?order=desc&apikey=" ++ c.apiKey

/-- The collaborators of one `get`: `httpGet n` answers the request made after `n`
earlier requests of this run, `jsonUnmarshal` is the generic decoder. -/
structure Transport where
  httpGet : Nat → String → httpReply
  jsonUnmarshal : Bytes → Except String resultsPage

/-- Where the worker goroutine of `get` (lines 112-125) stands. -/
inductive Worker where
  /-- Blocked in its `select` (line 116), ready to take a cursor or a stop request. -/
  | idle
  /-- Took a cursor from `in`; `tmp.next()` (line 118) has not returned yet. -/
  | fetching (tmp : skArtistCalendar)
  /-- Inside an `http.Get` that never returns. -/
  | hung
  /-- Blocked on `out <- skResponse{tmp, err}` (line 119). -/
  | sending (res : skResponse)
  /-- Took the stop request; blocked on `stopped <- true` (line 121). -/
  | acking
  /-- Returned (line 122). -/
  | done
  deriving DecidableEq, Repr

/-- Where the caller's side of `get` stands. -/
inductive Control where
  /-- In the local loop, at the `select` of line 149. -/
  | running
  /-- Sent the stop request as `failure`; blocked on `<-stopped` (line 151). -/
  | failing
  /-- Sent the stop request as `success`; blocked on `<-stopped` (line 154). -/
  | succeeding
  /-- The function returned this pair (`none` is a nil slice or a nil error). -/
  | returned (events : Option (List Event)) (err : Option String)
  /-- A run-time panic ended the program. -/
  | panicked
  deriving DecidableEq, Repr

/-- The state of one call of `Calendar.get`.  The last three fields are history, kept
for the statements only: no guard reads them, except that `requests.length` picks the
transport's reply. -/
structure State where
  control : Control
  worker : Worker
  /-- The variable `err` of line 95. -/
  err : Option String
  /-- The variable `next` of line 96: `true` when it holds `fetch`, `false` when nil. -/
  next : Bool
  events : List Event
  queue : List skEvent
  ac : skArtistCalendar
  limit : Int
  /-- Completed calls of `skArtistCalendar.next`. -/
  calls : Nat
  /-- URLs handed to `http.Get`, oldest first. -/
  requests : List String
  /-- Cursors received without error, oldest first. -/
  pages : List skArtistCalendar
  deriving DecidableEq, Repr

/-- The largest capacity `make([]Event, 0, limit)` (line 100) accepts on a 64-bit
platform: the runtime refuses a slice of more than 2^48 bytes, and an `Event` takes 392
bytes there (4 strings, a slice, a duration, 2 times, a 216-byte `Place`, a slice, an
int).  The exhaustion of memory below this bound is not modelled. -/
def maxCap : Int := 718048409976

/-- Lines 100-128: the state on entry to the local loop.  `make` panics on a negative
capacity and on one that is out of range; otherwise the worker has taken the initial
cursor (`fetch <- *ac`). -/
def get.init (url : String) (limit : Int) : State :=
  let ac : skArtistCalendar :=
    { Events := [], TotalEntries := 0, PerPage := 0, Page := 0, Endpoint := url }
  { control := if limit < 0 ∨ limit > maxCap then .panicked else .running
    worker := if limit < 0 ∨ limit > maxCap then .idle else .fetching ac
    err := none
    next := false
    events := []
    queue := []
    ac := ac
    limit := limit
    calls := 0
    requests := []
    pages := [] }

/-- Line 138: the stop channel is offered as `failure`. -/
def State.failure (s : State) : Bool := s.err.isSome

/-- Line 141: the stop channel is offered as `success`. -/
def State.success (s : State) : Bool :=
  !s.failure && (decide (s.ac.Page > 0) && decide (s.limit = (s.events.length : Int)))

/-- Line 144: a `queueReady` channel is made and fed. -/
def State.queueReady (s : State) : Bool :=
  !s.failure && !s.success && decide (s.queue.length > 0)

/-- Lines 175-181: the size of the chunk to drain. -/
def State.chunk (s : State) : Int :=
  let chunkSize : Int := 5
  let s1 :=
    if chunkSize > wrap64 (s.limit - (s.events.length : Int)) then
      wrap64 (s.limit - (s.events.length : Int))
    else chunkSize
  if s1 > (s.queue.length : Int) then (s.queue.length : Int) else s1

/-- The communications and `select` cases of `get`. -/
inductive Action where
  /-- Worker: `tmp.next()` returns and the worker moves on to `out <- ...`. -/
  | workerNext
  /-- Line 150 with line 120: the worker takes the stop request sent as `failure`. -/
  | stopFailure
  /-- Line 153 with line 120: the worker takes the stop request sent as `success`. -/
  | stopSuccess
  /-- Line 156 with line 117: the worker takes the current cursor. -/
  | startFetch
  /-- Line 158 with line 119: the controller takes the worker's response. -/
  | receive
  /-- Line 173: the queue is drained by one chunk. -/
  | queueReady
  /-- Line 187: the 30-second timer fires. -/
  | timeout
  /-- Line 121 with line 151 or 154: the acknowledgment; both sides return. -/
  | stopped
  deriving DecidableEq, Repr

/-- Lines 158-172: the body of the `receive` case. -/
def State.receive (s : State) (res : skResponse) : State :=
  match res.Err with
  | some e => { s with worker := .idle, err := some e }
  | none =>
    match res.Cal with
    | none => { s with worker := .idle, err := none, control := .panicked }
    | some ac =>
      let queue := if ac.Events.length > 0 then s.queue ++ ac.Events else s.queue
      let limit :=
        if s.limit = 0 ∨ s.limit > ac.TotalEntries then ac.TotalEntries else s.limit
      let next :=
        if (queue.length : Int) + (s.events.length : Int) < limit then true else s.next
      { s with
        worker := .idle, err := none, ac := ac, queue := queue, limit := limit,
        next := next, pages := s.pages ++ [ac] }

/-- Lines 173-186: the body of the `queueReady` case; slicing with a negative bound
panics. -/
def State.drain (s : State) : State :=
  if s.chunk < 0 then { s with control := .panicked }
  else
    { s with
      queue := s.queue.drop s.chunk.toNat
      events := s.events ++ (s.queue.take s.chunk.toNat).map skEvent.Event }

/-- One step of `get`: `none` when the action cannot fire in this state. -/
def step (T : Transport) (s : State) : Action → Option State
  | .workerNext =>
    match s.control, s.worker with
    | .panicked, _ => none
    | _, .fetching tmp =>
      let r := tmp.next (T.httpGet s.requests.length) T.jsonUnmarshal
      match r.result with
      | none => some { s with worker := .hung, requests := s.requests ++ r.requests }
      | some (.ok cal) =>
        some { s with
               worker := .sending ⟨some cal, none⟩
               calls := s.calls + 1, requests := s.requests ++ r.requests }
      | some (.error e) =>
        some { s with
               worker := .sending ⟨none, some e⟩
               calls := s.calls + 1, requests := s.requests ++ r.requests }
    | _, _ => none
  | .stopFailure =>
    match s.control, s.worker with
    | .running, .idle =>
      if s.failure then some { s with control := .failing, worker := .acking } else none
    | _, _ => none
  | .stopSuccess =>
    match s.control, s.worker with
    | .running, .idle =>
      if s.success then some { s with control := .succeeding, worker := .acking } else none
    | _, _ => none
  | .startFetch =>
    match s.control, s.worker with
    | .running, .idle =>
      if s.next then some { s with worker := .fetching s.ac, next := false } else none
    | _, _ => none
  | .receive =>
    match s.control, s.worker with
    | .running, .sending res => some (s.receive res)
    | _, _ => none
  | .queueReady =>
    match s.control with
    | .running => if s.queueReady then some s.drain else none
    | _ => none
  | .timeout =>
    match s.control with
    | .running => some { s with err := some "API Timeout" }
    | _ => none
  | .stopped =>
    match s.control, s.worker with
    | .failing, .acking =>
      some { s with control := .returned none s.err, worker := .done }
    | .succeeding, .acking =>
      some { s with control := .returned (some s.events) none, worker := .done }
    | _, _ => none

/-- A schedule, fired from left to right; `none` when one of its actions cannot fire. -/
def run (T : Transport) (s : State) : List Action → Option State
  | [] => some s
  | a :: as =>
    match step T s a with
    | none => none
    | some s1 => run T s1 as

/-- Line 215, `ac.Page++`: the cursor with its page counter advanced. -/
def skArtistCalendar.incr (ac : skArtistCalendar) : skArtistCalendar :=
  { ac with Page := wrap64 (ac.Page + 1) }

/-! ## The invariant of `get` -/

/-- The worker holds a cursor whose response the controller has not taken yet. -/
def Worker.busy : Worker → Prop
  | .fetching _ => True
  | .hung => True
  | .sending _ => True
  | _ => False

/-- The value of `limit` after the given pages were received, for a call with `limit0`. -/
def limitOf (limit0 : Int) : List skArtistCalendar → Int
  | [] => limit0
  | p :: ps =>
    (ps.map (·.TotalEntries)).foldl min
      (if limit0 = 0 then p.TotalEntries else min limit0 p.TotalEntries)

/-- The cursor carries a page that the transport served: some request was answered with
status 200 and a body that decodes to the cursor's events and counters. -/
def Served (T : Transport) (cal : skArtistCalendar) : Prop :=
  ∃ n url status data tmp,
    T.httpGet n url = .response 200 status (.ok data) ∧
    T.jsonUnmarshal data = .ok tmp ∧
    cal.Events = tmp.Event ∧ cal.TotalEntries = tmp.TotalEntries ∧
    cal.PerPage = tmp.PerPage ∧ cal.Page = tmp.Page

/-- The invariant of `get`: it holds initially and every step keeps it.  `limit0` is the
limit the caller passed. -/
structure Inv (T : Transport) (limit0 : Int) (s : State) : Prop where
  limit_eq : s.limit = limitOf limit0 s.pages
  busy_next : s.worker.busy → s.next = false ∧ (s.pages = [] ∨ 0 < s.limit)
  next_pos : s.next = true → 0 < s.limit
  drained : s.events ++ s.queue.map skEvent.Event
    = (s.pages.flatMap (·.Events)).map skEvent.Event
  fresh : s.pages = [] → s.ac.Page = 0
  sent : ∀ cal e, s.worker = .sending ⟨some cal, e⟩ → Served T cal
  served : ∀ p ∈ s.pages, Served T p
  stopping : s.control = .succeeding → s.ac.Page > 0 ∧ s.limit = (s.events.length : Int)
  failing : s.control = .failing → s.err ≠ none
  acking : (s.control = .failing ∨ s.control = .succeeding) ↔ s.worker = .acking
  returned : ∀ evs e, s.control = .returned evs e →
    s.worker = .done ∧
    ((evs = some s.events ∧ e = none ∧ s.ac.Page > 0 ∧ s.limit = (s.events.length : Int)) ∨
     (evs = none ∧ e = s.err ∧ s.err ≠ none))

/-! ## Concrete inputs -/

/-- A wire event with the given id and every other field at its zero value. -/
def skEvent.withID (i : Int) : skEvent :=
  { ID := i, Type_ := "", URI := "", DisplayName := "", Start := Time.zero, End := Time.zero,
    Performance := [], Location := ⟨"", ⟨0⟩, ⟨0⟩⟩,
    Venue := ⟨0, "", "", ⟨0, "", "", "", ""⟩, ⟨0⟩, ⟨0⟩⟩,
    Popularity := ⟨0⟩, SeriesDisplayName := "" }

/-- A cursor that has fetched page 1 of 3 at 10 entries per page out of 23. -/
def cursorPage1 : skArtistCalendar :=
  { Events := [], TotalEntries := 23, PerPage := 10, Page := 1, Endpoint := "u" }

/-- A provider that ignores the page parameter: every request is answered with status
200 and the one-byte body `[1]`. -/
def stuckGet : String → httpReply := fun _ => .response 200 "200 OK" (.ok [1])

/-- A decoder for `stuckGet`: the body `[1]` is page 1 (one event, 23 entries, 10 per
page); anything else is malformed. -/
def stuckUnmarshal : Bytes → Except String resultsPage := fun data =>
  if data = [1] then .ok ⟨[skEvent.withID 1], 23, 10, 1⟩ else .error "unexpected end of JSON input"

/-- A provider with a single entry: every request is answered with status 200 and a
body that decodes to one event, `totalEntries` 1, `perPage` 50, `page` 1. -/
def soloT : Transport :=
  { httpGet := fun _ _ => .response 200 "200 OK" (.ok [1])
    jsonUnmarshal := fun _ => .ok ⟨[skEvent.withID 7], 1, 50, 1⟩ }

/-- The cursor `get` holds after the single page of `soloT`. -/
def soloPage : skArtistCalendar :=
  { Events := [skEvent.withID 7], TotalEntries := 1, PerPage := 50, Page := 1, Endpoint := "u" }

/-- The schedule of an undisturbed one-page run: fetch, receive, drain, stop. -/
def soloSchedule : List Action :=
  [.workerNext, .receive, .queueReady, .stopSuccess, .stopped]

/-- A provider whose total shrinks between two requests: the first request is answered
with page 1 (one event, `totalEntries` 2, one per page), every later one with page 2
(one event, `totalEntries` 1). -/
def shrinkT : Transport :=
  { httpGet := fun n _ => .response 200 "200 OK" (.ok [n])
    jsonUnmarshal := fun data =>
      if data = [0] then .ok ⟨[skEvent.withID 1], 2, 1, 1⟩
      else .ok ⟨[skEvent.withID 2], 1, 1, 2⟩ }

/-- A run against `shrinkT`: both pages are fetched before the queue is drained. -/
def shrinkSchedule : List Action :=
  [.workerNext, .receive, .startFetch, .workerNext, .receive, .queueReady, .stopSuccess,
   .stopped]

/-! ## A paging provider -/

/-- Page `k` (counted from 1) of a provider that holds the events `all` and serves `p`
of them per page: the events, `totalEntries`, `perPage` and `page`. -/
def pageOf (all : List skEvent) (p k : Nat) : resultsPage :=
  { Event := (all.drop ((k - 1) * p)).take p
    TotalEntries := all.length
    PerPage := p
    Page := k }

/-- The cursor `get` holds after `k` pages of that provider: the initial cursor of
line 108 for `k = 0`, the cursor decoded from page `k` afterwards. -/
def cursorAt (url : String) (all : List skEvent) (p : Nat) : Nat → skArtistCalendar
  | 0 => { Events := [], TotalEntries := 0, PerPage := 0, Page := 0, Endpoint := url }
  | k + 1 =>
    { Events := (all.drop (k * p)).take p
      TotalEntries := all.length
      PerPage := p
      Page := ((k + 1 : Nat) : Int)
      Endpoint := url }

/-- The transport is a provider of pages of `p` events out of `all`: as long as `k` pages
do not cover all entries, the request made after `k` earlier ones, which asks for page
`k + 1`, is answered with status 200 and a body that decodes to page `k + 1`. -/
def Serves (T : Transport) (url : String) (all : List skEvent) (p : Nat) : Prop :=
  ∀ k : Nat, k * p < all.length →
    ∃ status data,
      T.httpGet k (cursorAt url all p k).incr.url = .response 200 status (.ok data) ∧
      T.jsonUnmarshal data = .ok (pageOf all p (k + 1))

/-- The number of pages needed for `n` entries at `p` per page: the ceiling of `n / p`. -/
def pagesNeeded (n p : Nat) : Nat := (n + p - 1) / p

/-- The invariant of a run of `get` against a paging provider in which the timer fires
only while the controller has nothing else to do: `k = s.pages.length` pages have been
received, and an error is recorded only while the worker holds a cursor. -/
structure Paged (url : String) (all : List skEvent) (p : Nat) (s : State) : Prop where
  err : s.err ≠ none → (∃ tmp, s.worker = .fetching tmp) ∨ (∃ res, s.worker = .sending res)
  limit : s.limit = (all.length : Int)
  ac : s.ac = cursorAt url all p s.pages.length
  drained : s.events ++ s.queue.map skEvent.Event
    = (all.take (s.pages.length * p)).map skEvent.Event
  requests : s.requests.length = s.calls
  last : s.pages.length = 0 ∨ (s.pages.length - 1) * p < all.length
  fetching : ∀ tmp, s.worker = .fetching tmp →
    tmp = cursorAt url all p s.pages.length ∧ s.calls = s.pages.length ∧
    s.pages.length * p < all.length ∧ s.next = false ∧ s.control = .running
  sending : ∀ res, s.worker = .sending res →
    res = ⟨some (cursorAt url all p (s.pages.length + 1)), none⟩ ∧
    s.calls = s.pages.length + 1 ∧
    s.pages.length * p < all.length ∧ s.next = false ∧ s.control = .running
  idle : s.worker = .idle →
    s.calls = s.pages.length ∧ 1 ≤ s.pages.length ∧
    (s.next = true ↔ s.pages.length * p < all.length) ∧ s.control = .running
  acking : s.worker = .acking →
    s.calls = s.pages.length ∧ s.control = .succeeding ∧
    s.events = all.map skEvent.Event ∧ all.length ≤ s.pages.length * p
  done : s.worker = .done →
    s.calls = s.pages.length ∧
    s.control = .returned (some (all.map skEvent.Event)) none ∧
    all.length ≤ s.pages.length * p
  hung : s.worker ≠ .hung

/-- A bound on the number of steps other than the timer that a run against a paging
provider can still take: every such step lowers it, the timer leaves it as it is. -/
def fuel (all : List skEvent) (p : Nat) (s : State) : Nat :=
  4 * (all.length - s.pages.length * p)
    + (if s.next then 3 else 0)
    + (match s.worker with
        | .fetching _ => 2
        | .sending _ => 1
        | _ => 0)
    + (all.length - s.events.length)
    + (match s.control with
        | .running => 2
        | .succeeding => 1
        | _ => 0)

/-- No case of the `select` of line 149 other than the timer is ready: none of the two
stop requests, the hand-over of the cursor, the receipt of a response and the drain can
fire. -/
def State.waiting (T : Transport) (s : State) : Bool :=
  [Action.stopFailure, Action.stopSuccess, Action.startFetch, Action.receive,
    Action.queueReady].all fun a => (step T s a).isNone

/-- The timer is patient along a run: whenever it fires, no other case of the `select`
was ready (a 30-second timer does not win against a case that can proceed at once). -/
def patient (T : Transport) (s : State) : List Action → Bool
  | [] => true
  | a :: as =>
    (if a = .timeout then s.waiting T else true) &&
      (match step T s a with
        | none => true
        | some s1 => patient T s1 as)

/-- The number of steps of a schedule that are not the timer. -/
def work (sched : List Action) : Nat := (sched.filter fun a => a ≠ .timeout).length

/-- The 23 entries of the example provider, with ids 0 to 22 and pairwise different names
and URIs, so that their conversions differ too. -/
def all23 : List skEvent :=
  (List.range 23).map fun i =>
    { skEvent.withID (i : Int) with
      DisplayName := "gig " ++ toString i
      URI := "http://www.songkick.com/concerts/" ++ toString i }

/-- A mock transport keyed on the URL: it serves `all23` in pages of 10, page 1 when no
page is asked for, and answers any other URL with status 404.  The body of page `k` is
the single byte `k`. -/
def pagedT : Transport :=
  { httpGet := fun _ url =>
      if url = "u" then .response 200 "200 OK" (.ok [1])
      else if url = "u&page=2&per_page=10" then .response 200 "200 OK" (.ok [2])
      else if url = "u&page=3&per_page=10" then .response 200 "200 OK" (.ok [3])
      else .response 404 "404 Not Found" (.ok [])
    jsonUnmarshal := fun data =>
      match data with
      | [k] => .ok (pageOf all23 10 k)
      | _ => .error "unexpected end of JSON input" }

/-- One interleaving of a run against `pagedT`: each page is drained while the next one
is being fetched. -/
def pagedSchedule : List Action :=
  [.workerNext, .receive, .startFetch, .queueReady, .workerNext, .queueReady, .receive,
   .startFetch, .queueReady, .queueReady, .workerNext, .receive, .queueReady, .stopSuccess,
   .stopped]

/-- A run against `pagedT` with slow answers: the timer fires while the first request
is in flight, and again while the second is and the queue has been drained. -/
def slowSchedule : List Action :=
  [.timeout, .workerNext, .receive, .startFetch, .queueReady, .queueReady, .timeout,
   .workerNext, .receive, .startFetch, .queueReady, .queueReady, .workerNext, .receive,
   .queueReady, .stopSuccess, .stopped]

/-- A run against `pagedT` in which the timer fires although the hand-over of the cursor
and a drain are ready, as it may after the program was held up for 30 seconds; the stop
request then goes out as `failure`. -/
def stalledSchedule : List Action :=
  [.workerNext, .receive, .timeout, .stopFailure, .stopped]

/-- A provider without entries: every request is answered with status 200 and a page of
no events, `totalEntries` 0, `perPage` 10, `page` 1. -/
def emptyT : Transport :=
  { httpGet := fun _ _ => .response 200 "200 OK" (.ok [])
    jsonUnmarshal := fun _ => .ok ⟨[], 0, 10, 1⟩ }

/-- The run of `get` against `emptyT`: one fetch, then the stop. -/
def emptySchedule : List Action :=
  [.workerNext, .receive, .stopSuccess, .stopped]

/-! ## A transport that does not answer -/

/-- The states `get` can be in while the first request is never answered: the controller
is in its loop (or never got there), the queue is empty, and the worker is still inside
`next`. -/
def Stalled (url : String) (s : State) : Prop :=
  (s.control = .running ∨ s.control = .panicked) ∧ s.queue = [] ∧
  ((s.worker = .fetching ⟨[], 0, 0, 0, url⟩ ∧ s.requests = []) ∨ s.worker = .hung ∨
    (s.worker = .idle ∧ s.control = .panicked))

/-- A transport whose `http.Get` never returns. -/
def silentT : Transport :=
  { httpGet := fun _ _ => .never
    jsonUnmarshal := fun _ => .error "unexpected end of JSON input" }

/-- A run in which the answer of the one-entry provider arrives after the timer fired:
the suffix after the timer is the undisturbed schedule. -/
def lateSchedule : List Action :=
  [.workerNext, .receive, .queueReady, .stopSuccess, .stopped]

/-- A provider whose total drops below what was already handed out: the first request is
answered with page 1 (two events, `totalEntries` 3, two per page), every later one with
page 2 (one event, `totalEntries` 1). -/
def droppedT : Transport :=
  { httpGet := fun n _ => .response 200 "200 OK" (.ok [n])
    jsonUnmarshal := fun data =>
      if data = [0] then .ok ⟨[skEvent.withID 1, skEvent.withID 2], 3, 2, 1⟩
      else .ok ⟨[skEvent.withID 3], 1, 2, 2⟩ }

/-- A run against `droppedT` up to the drain that follows the second page: page 1 is
drained while page 2 is being fetched. -/
def droppedSchedule : List Action :=
  [.workerNext, .receive, .startFetch, .queueReady, .workerNext, .receive]

/-- A provider like `droppedT` whose second page reports the smallest `int` as
`totalEntries`. -/
def wrappedT : Transport :=
  { httpGet := fun n _ => .response 200 "200 OK" (.ok [n])
    jsonUnmarshal := fun data =>
      if data = [0] then .ok ⟨[skEvent.withID 1, skEvent.withID 2], 3, 2, 1⟩
      else .ok ⟨[skEvent.withID 3], -9223372036854775808, 2, 2⟩ }

/-! ## shows.go: `All` -/

/-- The pair `getResponse` a sub-fetch sends back (a nil slice or error is `none`). -/
structure getResponse where
  Events : Option (List Event)
  Err : Option String
  deriving DecidableEq, Repr

/-- What a call of `get` has handed to its caller at the end of the given run: the
returned pair, or `none` when the run has not returned (yet, or ever).  A run that
panicked hands over nothing either; in the program its panic ends the whole process, so
what `All` does after such a panic is not a behaviour of the program. -/
def get.outcome (T : Transport) (url : String) (limit : Int) (sched : List Action) :
    Option getResponse :=
  match run T (get.init url limit) sched with
  | some s =>
    match s.control with
    | .returned events err => some ⟨events, err⟩
    | _ => none
  | none => none

/-- Lines 79-81: `Upcoming`, as the outcome of a run of `get` on the calendar URL. -/
def Calendar.Upcoming (c : Calendar) (T : Transport) (limit : Int) (sched : List Action) :
    Option getResponse :=
  get.outcome T c.upcomingURL limit sched

/-- Lines 84-86: `Past`, as the outcome of a run of `get` on the gigography URL. -/
def Calendar.Past (c : Calendar) (T : Transport) (limit : Int) (sched : List Action) :
    Option getResponse :=
  get.outcome T c.pastURL limit sched

/-- The triple `All` returns: upcoming events, past events, error. -/
structure allResult where
  upcoming : Option (List Event)
  past : Option (List Event)
  err : Option String
  deriving DecidableEq, Repr

/-- The state of the loop of `All` (lines 55-73): the two slices, whether the value of
each channel has been taken, and the returned triple once there is one. -/
structure AllState where
  pevent : Option (List Event)
  fevent : Option (List Event)
  pastTaken : Bool
  futureTaken : Bool
  returned : Option allResult
  deriving DecidableEq, Repr

/-- Line 44: both slices are nil and nothing has been received. -/
def All.init : AllState := ⟨none, none, false, false, none⟩

/-- Lines 56-58: the test at the head of the loop. -/
def AllState.head (s : AllState) : AllState :=
  match s.pevent, s.fevent with
  | some pevent, some fevent => { s with returned := some ⟨some fevent, some pevent, none⟩ }
  | _, _ => s

/-- The cases of the `select` of `All`. -/
inductive AllAction where
  /-- Line 60: the response of `Past` is taken. -/
  | past
  /-- Line 65: the response of `Upcoming` is taken. -/
  | future
  /-- Line 70: the 30-second timer fires. -/
  | timeout
  deriving DecidableEq, Repr

/-- One iteration of the loop of `All`, given what the two sub-fetches deliver (`none`:
nothing so far): the chosen `select` case and the test at the head of the next
iteration.  `none` when the case cannot fire. -/
def All.step (past future : Option getResponse) (s : AllState) : AllAction → Option AllState
  | .past =>
    match s.returned, s.pastTaken, past with
    | none, false, some res =>
      match res.Err with
      | some err => some { s with pastTaken := true, returned := some ⟨none, none, some err⟩ }
      | none => some ({ s with pastTaken := true, pevent := res.Events }).head
    | _, _, _ => none
  | .future =>
    match s.returned, s.futureTaken, future with
    | none, false, some res =>
      match res.Err with
      | some err =>
        some { s with futureTaken := true, returned := some ⟨none, none, some err⟩ }
      | none => some ({ s with futureTaken := true, fevent := res.Events }).head
    | _, _, _ => none
  | .timeout =>
    match s.returned with
    | none => some { s with returned := some ⟨none, none, some "API Request Timeout"⟩ }
    | some _ => none

/-- A run of the loop of `All`. -/
def All.run (past future : Option getResponse) (s : AllState) :
    List AllAction → Option AllState
  | [] => some s
  | a :: as =>
    match All.step past future s a with
    | none => none
    | some s1 => All.run past future s1 as

/-- Lines 43-76: `Calendar.All(limit)`.  The two sub-fetches run with their own
transports and interleavings; `sched` is the order in which the `select` cases of `All`
fire.  The value is the returned triple, `none` when the run is impossible or has not
returned. -/
def Calendar.All (c : Calendar) (Tpast Tfuture : Transport) (limit : Int)
    (pastRun futureRun : List Action) (sched : List AllAction) : Option allResult :=
  match All.run (c.Past Tpast limit pastRun) (c.Upcoming Tfuture limit futureRun)
      All.init sched with
  | some s => s.returned
  | none => none

/-- A server that answers every request with status 500. -/
def brokenT : Transport :=
  { httpGet := fun _ _ => .response 500 "500 Internal Server Error" (.ok [])
    jsonUnmarshal := fun _ => .error "unexpected end of JSON input" }

/-- A run of `get` that fails on a slow error answer: the timer fires first, then the
answer arrives, the stop request is taken and acknowledged. -/
def slowFailure : List Action :=
  [.timeout, .workerNext, .receive, .stopFailure, .stopped]

/-- A run of `get` that fails on an error answer. -/
def fastFailure : List Action :=
  [.workerNext, .receive, .stopFailure, .stopped]

/-- The triples `All` may return, given what the two sub-fetches deliver: both slices
when both sub-fetches succeeded, otherwise two nil slices with the error of a sub-fetch
that failed or the error of the timer of `All`. -/
def Joined (past future : Option getResponse) (r : allResult) : Prop :=
  (∃ f p, r = ⟨some f, some p, none⟩ ∧
    future = some ⟨some f, none⟩ ∧ past = some ⟨some p, none⟩) ∨
  (∃ e, r = ⟨none, none, some e⟩ ∧
    (e = "API Request Timeout" ∨ (∃ ev, past = some ⟨ev, some e⟩) ∨
      (∃ ev, future = some ⟨ev, some e⟩)))

/-- The invariant of the loop of `All`: a slice that is set is the result of the
sub-fetch that succeeded, and a returned triple is a joined one. -/
def AllInv (past future : Option getResponse) (s : AllState) : Prop :=
  (∀ p, s.pevent = some p → past = some ⟨some p, none⟩) ∧
  (∀ f, s.fevent = some f → future = some ⟨some f, none⟩) ∧
  (∀ r, s.returned = some r → Joined past future r)

/-! ## songkick.go: wire dates -/

/-- The wire date `skDate`, a `time.Time`. -/
abbrev skDate := Time

/-- The anonymous struct `raw` that `skDate.UnmarshalJSON` decodes into (`date`,
`datetime`). -/
structure rawDate where
  Date : String
  DateTime : String
  deriving DecidableEq, Repr

/-- The layout of the full timestamp form (line 142). -/
def datetimeLayout : String := "2006-01-02T15:04:05-0700"

/-- The layout of the date-only form (line 149). -/
def dateLayout : String := "2006-01-02"

/-- Lines 135-157: `skDate.UnmarshalJSON`.  `jsonUnmarshal data` is the content of `raw`
after `json.Unmarshal(data, &raw)`, whose error the code ignores; `timeParse` is
`time.Parse`.  The value is the date stored in `*d`, or the returned error (`*d` is
then left as it was). -/
def skDate.UnmarshalJSON (jsonUnmarshal : Bytes → rawDate)
    (timeParse : String → String → Except String Time) (data : Bytes) :
    Except String skDate :=
  let raw := jsonUnmarshal data
  if raw.DateTime.length > 0 then
    match timeParse datetimeLayout raw.DateTime with
    | .error err => .error err
    | .ok t => .ok t
  else if raw.Date.length > 0 then
    match timeParse dateLayout raw.Date with
    | .error err => .error err
    | .ok t => .ok t
  else .error "No Date or Datetime"

/-- A stand-in for `time.Parse` on the values used below: the date 2013-05-01 in the
date-only layout (midnight UTC) and the timestamp 2013-05-01T20:00:00-0800 in the
timestamp layout; every other value is rejected, as `time.Parse` rejects the text
"TBA" under either layout. -/
def parseSample (layout value : String) : Except String Time :=
  if layout = dateLayout ∧ value = "2013-05-01" then
    .ok ⟨63502963200000000000, 0⟩
  else if layout = datetimeLayout ∧ value = "2013-05-01T20:00:00-0800" then
    .ok ⟨63503064000000000000, -28800⟩
  else .error ("parsing time " ++ value ++ " as " ++ layout ++ ": cannot parse")

/-- A wire date with a date-only value and a timestamp that is not one. -/
def vagueDate : rawDate :=
  { Date := "2013-05-01", DateTime := "TBA" }

/-- A wire event with a full timestamp start, no end date and the type "Club". -/
def clubNight : skEvent :=
  { skEvent.withID 9 with
    Type_ := "Club"
    Start := ⟨63503064000000000000, -28800⟩ }

/-- A wire event that starts on 1700-01-01 and ends on 2013-05-01 (midnight UTC), more
than 292 years later. -/
def centuries : skEvent :=
  { skEvent.withID 10 with
    Start := ⟨53615260800000000000, 0⟩
    End := ⟨63502963200000000000, 0⟩ }

/-- A festival from 2013-05-01 to 2013-05-03 (midnight UTC). -/
def festival : skEvent :=
  { skEvent.withID 11 with
    Type_ := "Festival"
    Start := ⟨63502963200000000000, 0⟩
    End := ⟨63503136000000000000, 0⟩ }

/-! ## Theorems -/

/-- A string is shorter than one character exactly when it is empty. -/
theorem length_lt_one_iff_empty (s : String) : s.length < 1 ↔ s = "" := by
  rw [Nat.lt_one_iff]
  constructor
  · intro h
    cases s with
    | mk l =>
      have : l = [] := List.length_eq_zero.mp h
      subst this; rfl
  · rintro rfl; rfl

/-- A successful `next` got past the exhaustion test, was answered with status 200 and a
readable body, and returns the cursor whose four data fields are those of the decoded
page. -/
theorem next_ok {httpGet : String → httpReply}
    {jsonUnmarshal : Bytes → Except String resultsPage} {ac cal : skArtistCalendar}
    (h : (ac.next httpGet jsonUnmarshal).result = some (.ok cal)) :
    ¬ (ac.count = ac.TotalEntries ∧ ac.Page > 0) ∧
    ∃ status data tmp,
      httpGet ac.incr.url = .response 200 status (.ok data) ∧
      jsonUnmarshal data = .ok tmp ∧
      cal = { Events := tmp.Event, TotalEntries := tmp.TotalEntries, PerPage := tmp.PerPage,
              Page := tmp.Page, Endpoint := ac.Endpoint } := by
  unfold skArtistCalendar.next at h
  split_ifs at h with h1 h2
  · simp at h
  · simp at h
  · refine ⟨h2, ?_⟩
    simp only at h
    split at h
    · simp at h
    · simp at h
    · rename_i code status body hg
      split_ifs at h with h3
      · simp at h
      · split at h
        · simp at h
        · rename_i data
          simp only [skArtistCalendar.UnmarshalJSON] at h
          split at h
          · simp at h
          · rename_i tmp hj
            simp at h
            have h3' : code = 200 := by simpa using h3
            subst h3'
            exact ⟨status, data, tmp, hg, hj, h.symm⟩

/-- Whatever the transport does, `next` hands at most the URL of the advanced cursor to
`http.Get`, and it does so exactly when neither early exit is taken. -/
theorem next_requests (httpGet : String → httpReply)
    (jsonUnmarshal : Bytes → Except String resultsPage) (ac : skArtistCalendar) :
    (ac.next httpGet jsonUnmarshal).requests =
      if ac.Endpoint.length < 1 ∨ (ac.count = ac.TotalEntries ∧ ac.Page > 0) then []
      else [ac.incr.url] := by
  unfold skArtistCalendar.next
  by_cases h1 : ac.Endpoint.length < 1
  · simp [h1]
  · by_cases h2 : ac.count = ac.TotalEntries ∧ ac.Page > 0
    · simp [h1, h2]
    · simp only [h1, h2, if_false, false_or]
      show (match httpGet ac.incr.url with
        | .never => (⟨[ac.incr.url], none⟩ : nextRun)
        | .fail e => ⟨[ac.incr.url], some (.error e)⟩
        | .response statusCode status body =>
          if statusCode ≠ 200 then ⟨[ac.incr.url], some (.error ("API Error:" ++ status))⟩
          else
            match body with
            | .error err => ⟨[ac.incr.url], some (.error err)⟩
            | .ok data => ⟨[ac.incr.url], some (ac.incr.UnmarshalJSON jsonUnmarshal data)⟩).requests
        = [ac.incr.url]
      cases httpGet ac.incr.url with
      | never => rfl
      | fail e => rfl
      | response code status body =>
        by_cases h3 : code ≠ 200
        · simp [h3]
        · cases body <;> simp [h3]

/-- C9. For a cursor with a non-empty Endpoint, `count()` is the smaller of the Go
product `PerPage*Page` and `TotalEntries`; `next` fails with ErrorNoMoreEvents without
handing any URL to `http.Get` if and only if `Page > 0` and `count()` equals
`TotalEntries`; in every other case it hands exactly one URL to `http.Get`, the one
built from the cursor with its page incremented. -/
theorem next_exhausted_iff (httpGet : String → httpReply)
    (jsonUnmarshal : Bytes → Except String resultsPage) (ac : skArtistCalendar)
    (hEndpoint : ac.Endpoint ≠ "") :
    ac.count = min (wrap64 (ac.PerPage * ac.Page)) ac.TotalEntries ∧
    (((ac.next httpGet jsonUnmarshal).result = some (.error ErrorNoMoreEvents) ∧
        (ac.next httpGet jsonUnmarshal).requests = []) ↔
      (ac.Page > 0 ∧ ac.count = ac.TotalEntries)) ∧
    (¬ (ac.Page > 0 ∧ ac.count = ac.TotalEntries) →
      (ac.next httpGet jsonUnmarshal).requests = [ac.incr.url] ∧
      ac.incr.Page = wrap64 (ac.Page + 1)) := by
  have hlen : ¬ ac.Endpoint.length < 1 := fun h => hEndpoint ((length_lt_one_iff_empty _).mp h)
  refine ⟨?_, ?_, ?_⟩
  · unfold skArtistCalendar.count
    simp only
    split_ifs with h
    · exact (min_eq_right (le_of_lt h)).symm
    · exact (min_eq_left (not_lt.mp h)).symm
  · constructor
    · rintro ⟨_, hreq⟩
      rw [next_requests] at hreq
      by_cases hg : ac.count = ac.TotalEntries ∧ ac.Page > 0
      · exact ⟨hg.2, hg.1⟩
      · simp [hlen, hg] at hreq
    · rintro ⟨hp, hc⟩
      unfold skArtistCalendar.next
      simp [hlen, hp, hc]
  · intro hg
    have hg' : ¬ (ac.count = ac.TotalEntries ∧ ac.Page > 0) := fun h => hg ⟨h.2, h.1⟩
    refine ⟨?_, rfl⟩
    rw [next_requests]
    simp [hlen, hg']

/-- Witness of C9 at the cursor that has fetched page 1 of 23 entries. -/
theorem next_exhausted_iff_witness :
    cursorPage1.Endpoint ≠ "" ∧
    (cursorPage1.next stuckGet stuckUnmarshal).requests = [cursorPage1.incr.url] :=
  ⟨by decide,
   ((next_exhausted_iff stuckGet stuckUnmarshal cursorPage1 (by decide)).2.2 (by decide)).1⟩

/-- C10, refuted as stated: a provider that answers the request for page 2 with page 1
again makes `next` succeed on a cursor at page 1 with a cursor that is still at page 1,
not at page 2. -/
theorem next_page_not_incremented :
    (cursorPage1.next stuckGet stuckUnmarshal).result =
        some (.ok { Events := [skEvent.withID 1], TotalEntries := 23, PerPage := 10, Page := 1,
                    Endpoint := "u" }) ∧
    (1 : Int) ≠ cursorPage1.Page + 1 := by
  constructor
  · rfl
  · decide

/-- C10, amended. Whenever `next` succeeds, the Page of the returned cursor is the page
number of the decoded response (the transport answered the URL of the incremented
cursor with status 200); hence it is the Page of the input cursor plus 1 whenever the
response reports the page that was asked for. -/
theorem next_page_is_response_page (httpGet : String → httpReply)
    (jsonUnmarshal : Bytes → Except String resultsPage) (ac cal : skArtistCalendar)
    (h : (ac.next httpGet jsonUnmarshal).result = some (.ok cal)) :
    ∃ status data tmp,
      httpGet ac.incr.url = .response 200 status (.ok data) ∧
      jsonUnmarshal data = .ok tmp ∧
      cal.Page = tmp.Page ∧
      (tmp.Page = ac.Page + 1 → cal.Page = ac.Page + 1) := by
  obtain ⟨_, status, data, tmp, hg, hj, rfl⟩ := next_ok h
  exact ⟨status, data, tmp, hg, hj, rfl, fun h => h⟩

/-- Witness of the amended C10: the stuck provider's answer carries page 1. -/
theorem next_page_is_response_page_witness :
    ∃ status data tmp,
      stuckGet cursorPage1.incr.url = .response 200 status (.ok data) ∧
      stuckUnmarshal data = .ok tmp ∧
      (1 : Int) = tmp.Page ∧
      (tmp.Page = cursorPage1.Page + 1 → (1 : Int) = cursorPage1.Page + 1) :=
  next_page_is_response_page stuckGet stuckUnmarshal cursorPage1
    { Events := [skEvent.withID 1], TotalEntries := 23, PerPage := 10, Page := 1,
      Endpoint := "u" } rfl

/-! ### The invariant is inductive -/

/-- One more page changes the limit exactly as lines 167-169 do. -/
theorem limitOf_snoc (limit0 : Int) (ps : List skArtistCalendar) (ac : skArtistCalendar)
    (h : ps = [] ∨ 0 < limitOf limit0 ps) :
    limitOf limit0 (ps ++ [ac]) =
      if limitOf limit0 ps = 0 ∨ limitOf limit0 ps > ac.TotalEntries then ac.TotalEntries
      else limitOf limit0 ps := by
  cases ps with
  | nil =>
    simp only [limitOf, List.nil_append, List.map_nil, List.foldl_nil]
    by_cases h0 : limit0 = 0
    · simp [h0]
    · simp only [h0, if_false, false_or]
      split_ifs with h1
      · exact min_eq_right (le_of_lt h1)
      · exact min_eq_left (not_lt.mp h1)
  | cons p ps =>
    have hpos : 0 < limitOf limit0 (p :: ps) := by
      rcases h with h | h
      · cases h
      · exact h
    have key : limitOf limit0 ((p :: ps) ++ [ac])
        = min (limitOf limit0 (p :: ps)) ac.TotalEntries := by
      simp [limitOf, List.foldl_append]
    rw [key]
    generalize limitOf limit0 (p :: ps) = m at hpos
    have : ¬ m = 0 := by omega
    simp only [this, false_or]
    split_ifs with h1
    · exact min_eq_right (le_of_lt h1)
    · exact min_eq_left (not_lt.mp h1)

/-- The state on entry to the loop satisfies the invariant. -/
theorem inv_init (T : Transport) (url : String) (limit : Int) :
    Inv T limit (get.init url limit) := by
  constructor <;> simp [get.init, limitOf, Worker.busy]
  all_goals split_ifs <;> simp

/-- The return of `next` in the worker keeps the invariant. -/
theorem inv_workerNext {T : Transport} {limit0 : Int} {s s1 : State}
    (hI : Inv T limit0 s) (h : step T s .workerNext = some s1) : Inv T limit0 s1 := by
  simp only [step] at h
  split at h
  · simp at h
  · rename_i tmp hw hc
    have hb := hI.busy_next (by rw [hw]; trivial)
    split at h
    · cases h
      obtain ⟨h1, h2, h3, h4, h5, h6, h7, h8, h9, h10, h11⟩ := hI
      constructor <;> simp_all [Worker.busy]
    · rename_i cal hres
      cases h
      obtain ⟨_, status, data, tmp1, hg, hj, rfl⟩ := next_ok hres
      have hs : Served T ⟨tmp1.Event, tmp1.TotalEntries, tmp1.PerPage, tmp1.Page, tmp.Endpoint⟩ :=
        ⟨_, _, status, data, tmp1, hg, hj, rfl, rfl, rfl, rfl⟩
      obtain ⟨h1, h2, h3, h4, h5, h6, h7, h8, h9, h10, h11⟩ := hI
      constructor <;> simp_all [Worker.busy]
    · cases h
      obtain ⟨h1, h2, h3, h4, h5, h6, h7, h8, h9, h10, h11⟩ := hI
      constructor <;> simp_all [Worker.busy]
  · simp at h

/-- Taking the stop request on the failure path keeps the invariant. -/
theorem inv_stopFailure {T : Transport} {limit0 : Int} {s s1 : State}
    (hI : Inv T limit0 s) (h : step T s .stopFailure = some s1) : Inv T limit0 s1 := by
  simp only [step] at h
  split at h
  · rename_i hc hw
    split_ifs at h with hf
    cases h
    have hne : s.err ≠ none := by
      intro he
      simp [State.failure, he] at hf
    obtain ⟨h1, h2, h3, h4, h5, h6, h7, h8, h9, h10, h11⟩ := hI
    constructor <;> simp_all [Worker.busy]
  · simp at h

/-- Taking the stop request on the success path keeps the invariant. -/
theorem inv_stopSuccess {T : Transport} {limit0 : Int} {s s1 : State}
    (hI : Inv T limit0 s) (h : step T s .stopSuccess = some s1) : Inv T limit0 s1 := by
  simp only [step] at h
  split at h
  · rename_i hc hw
    split_ifs at h with hf
    cases h
    obtain ⟨h1, h2, h3, h4, h5, h6, h7, h8, h9, h10, h11⟩ := hI
    constructor <;> simp_all [Worker.busy, State.success]
  · simp at h

/-- Handing the cursor to the worker keeps the invariant. -/
theorem inv_startFetch {T : Transport} {limit0 : Int} {s s1 : State}
    (hI : Inv T limit0 s) (h : step T s .startFetch = some s1) : Inv T limit0 s1 := by
  simp only [step] at h
  split at h
  · rename_i hc hw
    split_ifs at h with hf
    cases h
    obtain ⟨h1, h2, h3, h4, h5, h6, h7, h8, h9, h10, h11⟩ := hI
    constructor <;> simp_all [Worker.busy]
  · simp at h

/-- The timer keeps the invariant. -/
theorem inv_timeout {T : Transport} {limit0 : Int} {s s1 : State}
    (hI : Inv T limit0 s) (h : step T s .timeout = some s1) : Inv T limit0 s1 := by
  simp only [step] at h
  split at h
  · rename_i hc
    cases h
    obtain ⟨h1, h2, h3, h4, h5, h6, h7, h8, h9, h10, h11⟩ := hI
    constructor <;> simp_all [Worker.busy]
  · simp at h

/-- The acknowledgment keeps the invariant. -/
theorem inv_stopped {T : Transport} {limit0 : Int} {s s1 : State}
    (hI : Inv T limit0 s) (h : step T s .stopped = some s1) : Inv T limit0 s1 := by
  simp only [step] at h
  split at h
  · rename_i hc hw
    cases h
    obtain ⟨h1, h2, h3, h4, h5, h6, h7, h8, h9, h10, h11⟩ := hI
    constructor <;> simp_all [Worker.busy]
  · rename_i hc hw
    cases h
    obtain ⟨h1, h2, h3, h4, h5, h6, h7, h8, h9, h10, h11⟩ := hI
    constructor <;> simp_all [Worker.busy]
  · simp at h

/-- A drain keeps the invariant, also when it panics. -/
theorem inv_queueReady {T : Transport} {limit0 : Int} {s s1 : State}
    (hI : Inv T limit0 s) (h : step T s .queueReady = some s1) : Inv T limit0 s1 := by
  simp only [step] at h
  split at h
  · rename_i hc
    split_ifs at h with hq
    cases h
    obtain ⟨h1, h2, h3, h4, h5, h6, h7, h8, h9, h10, h11⟩ := hI
    unfold State.drain
    split_ifs with hneg
    · constructor <;> simp_all [Worker.busy]
    · have hd : s.events ++ List.map skEvent.Event (List.take s.chunk.toNat s.queue)
          ++ List.map skEvent.Event (List.drop s.chunk.toNat s.queue)
          = List.map skEvent.Event (s.pages.flatMap (·.Events)) := by
        rw [List.append_assoc, ← List.map_append, List.take_append_drop]
        exact h4
      constructor <;> simp_all [Worker.busy]
  · simp at h

/-- Taking a response keeps the invariant. -/
theorem inv_receive {T : Transport} {limit0 : Int} {s s1 : State}
    (hI : Inv T limit0 s) (h : step T s .receive = some s1) : Inv T limit0 s1 := by
  simp only [step] at h
  split at h
  · rename_i res hc hw
    cases h
    have hb := hI.busy_next (by rw [hw]; trivial)
    obtain ⟨h1, h2, h3, h4, h5, h6, h7, h8, h9, h10, h11⟩ := hI
    unfold State.receive
    split
    · constructor <;> simp_all [Worker.busy]
    · split
      · constructor <;> simp_all [Worker.busy]
      · rename_i hErr ac hCal
        have hres : res = ⟨some ac, none⟩ := by
          cases res; simp_all
        subst hres
        have hsv : Served T ac := h6 ac none hw
        have hlim := limitOf_snoc limit0 s.pages ac (by rw [← h1]; exact hb.2)
        have hq : (if ac.Events.length > 0 then s.queue ++ ac.Events else s.queue)
            = s.queue ++ ac.Events := by
          split_ifs with hlen
          · rfl
          · have : ac.Events = [] := List.length_eq_zero.mp (by omega)
            simp [this]
        constructor <;> simp only [hq]
        · rw [hlim, ← h1]
        · intro hbusy; exact absurd hbusy (by simp [Worker.busy])
        · generalize (if s.limit = 0 ∨ s.limit > ac.TotalEntries then ac.TotalEntries
              else s.limit) = L
          intro hn
          split_ifs at hn with hlt
          · have : (0:Int) ≤ ((s.queue ++ ac.Events).length : Int) + (s.events.length : Int) := by
              positivity
            omega
          · rw [hb.1] at hn; cases hn
        · rw [List.map_append, ← List.append_assoc, h4, List.flatMap_append]
          simp
        · intro hp; simp at hp
        · intro cal e hw1; cases hw1
        · intro p hp
          rcases List.mem_append.mp hp with hp | hp
          · exact h7 p hp
          · simp at hp; subst hp; exact hsv
        · intro hc1; rw [hc] at hc1; cases hc1
        · intro hc1; rw [hc] at hc1; cases hc1
        · simp [hc]
        · intro evs e hc1; rw [hc] at hc1; cases hc1
  · simp at h

/-- Every step keeps the invariant. -/
theorem inv_step {T : Transport} {limit0 : Int} {s s1 : State} (a : Action)
    (hI : Inv T limit0 s) (h : step T s a = some s1) : Inv T limit0 s1 := by
  cases a
  · exact inv_workerNext hI h
  · exact inv_stopFailure hI h
  · exact inv_stopSuccess hI h
  · exact inv_startFetch hI h
  · exact inv_receive hI h
  · exact inv_queueReady hI h
  · exact inv_timeout hI h
  · exact inv_stopped hI h

/-- Every run keeps the invariant. -/
theorem inv_run {T : Transport} {limit0 : Int} (sched : List Action) {s s1 : State}
    (hI : Inv T limit0 s) (h : run T s sched = some s1) : Inv T limit0 s1 := by
  induction sched generalizing s with
  | nil => simp only [run, Option.some.injEq] at h; subst h; exact hI
  | cons a as ih =>
    simp only [run] at h
    split at h
    · simp at h
    · rename_i s2 hs
      exact ih (inv_step a hI hs) h

/-- A run with one more action at the end is the run followed by that step. -/
theorem run_snoc (T : Transport) (s : State) (pre : List Action) (a : Action) :
    run T s (pre ++ [a]) = (run T s pre).bind fun s1 => step T s1 a := by
  induction pre generalizing s with
  | nil =>
    simp only [List.nil_append, run, Option.some_bind]
    cases step T s a <;> rfl
  | cons b bs ih =>
    simp only [List.cons_append, run]
    cases step T s b with
    | none => rfl
    | some s2 => exact ih s2

/-- A running minimum is at most its starting value. -/
theorem foldl_min_le (l : List Int) (a : Int) : l.foldl min a ≤ a := by
  induction l generalizing a with
  | nil => exact le_refl _
  | cons x xs ih => exact le_trans (ih (min a x)) (min_le_left a x)

/-- A running minimum stays at its starting value when no element is smaller. -/
theorem foldl_min_eq (l : List Int) (a : Int) (h : ∀ x ∈ l, a ≤ x) : l.foldl min a = a := by
  induction l generalizing a with
  | nil => rfl
  | cons x xs ih =>
    have hx : min a x = a := min_eq_left (h x (List.mem_cons_self x xs))
    simp only [List.foldl_cons, hx]
    exact ih a fun y hy => h y (List.mem_cons_of_mem x hy)

/-- A positive limit is never raised by the pages received. -/
theorem limitOf_le (limit0 : Int) (ps : List skArtistCalendar) (h : 0 < limit0) :
    limitOf limit0 ps ≤ limit0 := by
  cases ps with
  | nil => exact le_refl _
  | cons p ps =>
    have h0 : ¬ limit0 = 0 := by omega
    simp only [limitOf, h0, if_false]
    exact le_trans (foldl_min_le _ _) (min_le_left _ _)

set_option linter.unusedTactic false

/-- In a reachable state that has returned, nothing can fire any more. -/
theorem step_after_return {T : Transport} {limit0 : Int} {s : State}
    (hI : Inv T limit0 s) {evs : Option (List Event)} {e : Option String}
    (hc : s.control = .returned evs e) (a : Action) : step T s a = none := by
  have hw := (hI.returned evs e hc).1
  cases a <;> simp [step, hc, hw]

/-- Only the acknowledgment makes `get` return, and it returns what the stop request
announced. -/
theorem step_to_returned {T : Transport} {limit0 : Int} {s s1 : State} {a : Action}
    (hI : Inv T limit0 s) (h : step T s a = some s1)
    {evs : Option (List Event)} {e : Option String} (hc : s1.control = .returned evs e) :
    a = .stopped ∧
    ((s.control = .failing ∧ evs = none ∧ e ≠ none) ∨
     (s.control = .succeeding ∧ evs.isSome ∧ e = none)) := by
  by_cases hr : ∃ evs0 e0, s.control = .returned evs0 e0
  · obtain ⟨evs0, e0, hr⟩ := hr
    rw [step_after_return hI hr a] at h
    cases h
  · have hfail := hI.failing
    cases a <;> simp only [step] at h <;> (repeat' split at h) <;>
      first
      | (cases h; done)
      | (cases h; simp only [Control.returned.injEq] at hc; obtain ⟨rfl, rfl⟩ := hc;
         simp_all; done)
      | (cases h; simp_all [State.drain, State.receive]; done)
      | (cases h; simp only [State.receive] at hc; (repeat' split at hc) <;> simp_all; done)
      | (cases h; simp only [State.drain] at hc; (repeat' split at hc) <;> simp_all; done)

/-- A stop request is the only way into the two waiting states of the controller. -/
theorem step_to_stopping {T : Transport} {limit0 : Int} {s s1 : State} {a : Action}
    (hI : Inv T limit0 s) (h : step T s a = some s1) :
    (s1.control = .failing → a = .stopFailure) ∧
    (s1.control = .succeeding → a = .stopSuccess) := by
  have hack := hI.acking
  cases a <;> simp only [step] at h <;> (repeat' split at h) <;>
    first
    | (cases h; done)
    | (cases h; simp_all [State.drain, State.receive]; done)
    | (cases h; simp only [State.receive]; (repeat' split) <;> simp_all; done)
    | (cases h; simp only [State.drain]; (repeat' split) <;> simp_all; done)

/-- Every state `get` can reach satisfies the invariant. -/
theorem inv_reachable (T : Transport) (url : String) (limit : Int) (sched : List Action)
    {s : State} (h : run T (get.init url limit) sched = some s) : Inv T limit s :=
  inv_run sched (inv_init T url limit) h

/-- What has been drained is a prefix of what has been fetched. -/
theorem drained_prefix {T : Transport} {limit0 : Int} {s : State} (hI : Inv T limit0 s) :
    s.events = ((s.pages.flatMap (·.Events)).take s.events.length).map skEvent.Event := by
  rw [List.map_take, ← hI.drained, List.take_left']
  rfl

/-- C1. For every url, every limit > 0 and every transport (every sequence of page
responses), whenever a run of `Calendar.get(url, limit)` returns successfully, the
returned events are exactly the first n events, each converted with `skEvent.Event`, of
the concatenation in order of arrival of the events of the pages received (each of which
a request was answered with), for an n that is at most limit: nothing is reordered,
skipped or duplicated, and the result has at most limit events. -/
theorem get_returns_bounded_prefix (T : Transport) (url : String) (limit : Int)
    (hlimit : 0 < limit) (sched : List Action) (s : State) (events : List Event)
    (hrun : run T (get.init url limit) sched = some s)
    (hret : s.control = .returned (some events) none) :
    (∀ p ∈ s.pages, Served T p) ∧
    ∃ n : Nat, (n : Int) ≤ limit ∧ events.length = n ∧
      events = ((s.pages.flatMap (·.Events)).take n).map skEvent.Event := by
  have hI := inv_reachable T url limit sched hrun
  refine ⟨hI.served, events.length, ?_, rfl, ?_⟩
  · rcases (hI.returned _ _ hret).2 with ⟨he, _, _, hl⟩ | ⟨he, _⟩
    · simp only [Option.some.injEq] at he
      subst he
      rw [← hl, hI.limit_eq]
      exact limitOf_le limit s.pages hlimit
    · cases he
  · rcases (hI.returned _ _ hret).2 with ⟨he, _, _, _⟩ | ⟨he, _⟩
    · simp only [Option.some.injEq] at he
      subst he
      exact drained_prefix hI
    · cases he

/-- Witness of C1: the one-entry provider, limit 1, the undisturbed schedule. -/
theorem get_returns_bounded_prefix_witness :
    (0 : Int) < 1 ∧
    ∃ s, run soloT (get.init "u" 1) soloSchedule = some s ∧
      s.control = .returned (some [(skEvent.withID 7).Event]) none ∧
      (∀ p ∈ s.pages, Served soloT p) ∧
      ∃ n : Nat, (n : Int) ≤ 1 ∧ [(skEvent.withID 7).Event].length = n ∧
        [(skEvent.withID 7).Event]
          = ((s.pages.flatMap (·.Events)).take n).map skEvent.Event :=
  ⟨by decide, _, rfl, rfl,
    get_returns_bounded_prefix soloT "u" 1 (by decide) soloSchedule _ _ rfl rfl⟩

/-- A list is empty or ends with a last element. -/
theorem nil_or_snoc {α : Type} (l : List α) : l = [] ∨ ∃ L b, l = L ++ [b] := by
  rcases List.eq_nil_or_concat l with h | ⟨L, b, h⟩
  · exact Or.inl h
  · exact Or.inr ⟨L, b, by rw [h, List.concat_eq_append]⟩

/-- C4, refuted as stated: with limit 0 and two successful page responses of which the
first reports `totalEntries` 2 and the second `totalEntries` 1, `get` returns
successfully with one event, not two. -/
theorem get_unlimited_count_not_first_total :
    ∃ s p ps,
      run shrinkT (get.init "u" 0) shrinkSchedule = some s ∧
      s.control = .returned (some [(skEvent.withID 1).Event]) none ∧
      s.pages = p :: ps ∧ p.TotalEntries = 2 ∧
      (([(skEvent.withID 1).Event].length : Int) ≠ p.TotalEntries) :=
  ⟨_, _, _, rfl, rfl, rfl, rfl, by decide⟩

/-- C4, amended. For limit 0 and every transport, when `get` returns successfully at
least one page was received and the number of returned events equals the smallest
`TotalEntries` reported by the pages received; it therefore equals the `TotalEntries`
of the first page whenever no later page reports a smaller one. -/
theorem get_unlimited_count (T : Transport) (url : String) (sched : List Action) (s : State)
    (events : List Event)
    (hrun : run T (get.init url 0) sched = some s)
    (hret : s.control = .returned (some events) none) :
    ∃ p ps, s.pages = p :: ps ∧
      (events.length : Int) = (ps.map (·.TotalEntries)).foldl min p.TotalEntries ∧
      ((∀ q ∈ ps, p.TotalEntries ≤ q.TotalEntries) →
        (events.length : Int) = p.TotalEntries) := by
  have hI := inv_reachable T url 0 sched hrun
  rcases (hI.returned _ _ hret).2 with ⟨he, _, hpage, hl⟩ | ⟨he, _⟩
  · simp only [Option.some.injEq] at he
    subst he
    cases hp : s.pages with
    | nil =>
      have := hI.fresh hp
      omega
    | cons p ps =>
      have hlim : s.limit = (ps.map (·.TotalEntries)).foldl min p.TotalEntries := by
        rw [hI.limit_eq, hp]
        simp [limitOf]
      refine ⟨p, ps, rfl, ?_, ?_⟩
      · rw [← hl, hlim]
      · intro hall
        rw [← hl, hlim]
        apply foldl_min_eq
        intro x hx
        obtain ⟨q, hq, rfl⟩ := List.mem_map.mp hx
        exact hall q hq
  · cases he

/-- Witness of the amended C4: the one-entry provider, limit 0. -/
theorem get_unlimited_count_witness :
    ∃ s, run soloT (get.init "u" 0) soloSchedule = some s ∧
      s.control = .returned (some [(skEvent.withID 7).Event]) none ∧
      ∃ p ps, s.pages = p :: ps ∧
        (([(skEvent.withID 7).Event].length : Int)
          = (ps.map (·.TotalEntries)).foldl min p.TotalEntries) ∧
        ((∀ q ∈ ps, p.TotalEntries ≤ q.TotalEntries) →
          ([(skEvent.withID 7).Event].length : Int) = p.TotalEntries) :=
  ⟨_, rfl, rfl, get_unlimited_count soloT "u" soloSchedule _ _ rfl rfl⟩

/-- C6. Every return of `Calendar.get`, on the success path and on the failure path,
comes right after the stop request (sent as `success`, respectively as `failure`) and
the worker's acknowledgment, which are the last two steps of the run; at the return the
worker has returned too, and nothing can fire afterwards: the worker emits no further
response. -/
theorem get_returns_after_acknowledgment (T : Transport) (url : String) (limit : Int)
    (sched : List Action) (s : State) (events : Option (List Event)) (err : Option String)
    (hrun : run T (get.init url limit) sched = some s)
    (hret : s.control = .returned events err) :
    (∃ pre stop, sched = pre ++ [stop, .stopped] ∧
      ((stop = .stopFailure ∧ events = none ∧ err ≠ none) ∨
       (stop = .stopSuccess ∧ events.isSome ∧ err = none))) ∧
    s.worker = .done ∧ ∀ a, step T s a = none := by
  have hI := inv_reachable T url limit sched hrun
  refine ⟨?_, (hI.returned _ _ hret).1, step_after_return hI hret⟩
  have hinit : ∀ c, (get.init url limit).control = c → c = .running ∨ c = .panicked := by
    intro c hc
    rw [← hc]
    simp only [get.init]
    split_ifs
    · exact Or.inr rfl
    · exact Or.inl rfl
  rcases nil_or_snoc sched with rfl | ⟨pre1, b, rfl⟩
  · simp only [run, Option.some.injEq] at hrun
    subst hrun
    rcases hinit _ hret with h | h <;> cases h
  · rw [run_snoc] at hrun
    cases h1 : run T (get.init url limit) pre1 with
    | none => rw [h1] at hrun; cases hrun
    | some s1 =>
      rw [h1] at hrun
      simp only [Option.some_bind] at hrun
      have hI1 := inv_reachable T url limit pre1 h1
      obtain ⟨rfl, hstop⟩ := step_to_returned hI1 hrun hret
      rcases nil_or_snoc pre1 with rfl | ⟨pre, c, rfl⟩
      · simp only [run, Option.some.injEq] at h1
        subst h1
        rcases hstop with ⟨h, _⟩ | ⟨h, _⟩ <;> rcases hinit _ h with h2 | h2 <;> cases h2
      · rw [run_snoc] at h1
        cases h2 : run T (get.init url limit) pre with
        | none => rw [h2] at h1; cases h1
        | some s2 =>
          rw [h2] at h1
          simp only [Option.some_bind] at h1
          have hI2 := inv_reachable T url limit pre h2
          have hc := step_to_stopping hI2 h1
          refine ⟨pre, c, by simp, ?_⟩
          rcases hstop with ⟨h, he, hn⟩ | ⟨h, he, hn⟩
          · exact Or.inl ⟨hc.1 h, he, hn⟩
          · exact Or.inr ⟨hc.2 h, he, hn⟩

/-- Witness of C6: the undisturbed one-page run returns right after stop and
acknowledgment. -/
theorem get_returns_after_acknowledgment_witness :
    ∃ s, run soloT (get.init "u" 1) soloSchedule = some s ∧
      s.control = .returned (some [(skEvent.withID 7).Event]) none ∧
      (∃ pre stop, soloSchedule = pre ++ [stop, .stopped] ∧
        ((stop = .stopFailure ∧ some [(skEvent.withID 7).Event] = none ∧
            (none : Option String) ≠ none) ∨
         (stop = .stopSuccess ∧ (some [(skEvent.withID 7).Event]).isSome ∧
            (none : Option String) = none))) ∧
      s.worker = .done ∧ ∀ a, step soloT s a = none :=
  ⟨_, rfl, rfl,
    get_returns_after_acknowledgment soloT "u" 1 soloSchedule _ _ _ rfl rfl⟩

/-- Values in the range of a Go `int` are not changed by the wrap. -/
theorem wrap64_eq (x : Int) (h0 : -9223372036854775808 ≤ x) (h1 : x ≤ 9223372036854775807) :
    wrap64 x = x := by
  unfold wrap64
  omega

/-- Against a paging provider, `next` on the cursor after `k` pages issues one request
and returns the cursor after `k + 1` pages. -/
theorem next_serves {T : Transport} {url : String} {all : List skEvent} {p : Nat}
    (hT : Serves T url all p) (hurl : url ≠ "")
    (hmax : (all.length : Int) ≤ 9223372036854775807) (k : Nat) (hk : k * p < all.length) :
    (cursorAt url all p k).next (T.httpGet k) T.jsonUnmarshal
      = ⟨[(cursorAt url all p k).incr.url], some (.ok (cursorAt url all p (k + 1)))⟩ := by
  obtain ⟨status, data, hg, hj⟩ := hT k hk
  have hlen : ¬ (cursorAt url all p k).Endpoint.length < 1 := by
    intro h
    apply hurl
    have := (length_lt_one_iff_empty _).mp h
    cases k <;> exact this
  have hguard : ¬ ((cursorAt url all p k).count = (cursorAt url all p k).TotalEntries ∧
      (cursorAt url all p k).Page > 0) := by
    cases k with
    | zero => simp [cursorAt]
    | succ j =>
      rintro ⟨hc, -⟩
      have hk' : ((p : Int) * ((j + 1 : Nat) : Int)) < all.length := by
        have : (((j + 1) * p : Nat) : Int) < all.length := by exact_mod_cast hk
        push_cast at this ⊢
        linarith
      have h0 : (0 : Int) ≤ (p : Int) * ((j + 1 : Nat) : Int) :=
        mul_nonneg (Int.ofNat_nonneg p) (Int.ofNat_nonneg (j + 1))
      simp only [skArtistCalendar.count, cursorAt] at hc
      rw [wrap64_eq _ (by omega) (by omega)] at hc
      split_ifs at hc with h1 <;> omega
  unfold skArtistCalendar.next
  simp only [hlen, hguard, if_false]
  show (match T.httpGet k (cursorAt url all p k).incr.url with
    | .never => (⟨[(cursorAt url all p k).incr.url], none⟩ : nextRun)
    | .fail e => ⟨[(cursorAt url all p k).incr.url], some (.error e)⟩
    | .response statusCode status body =>
      if statusCode ≠ 200 then
        ⟨[(cursorAt url all p k).incr.url], some (.error ("API Error:" ++ status))⟩
      else
        match body with
        | .error err => ⟨[(cursorAt url all p k).incr.url], some (.error err)⟩
        | .ok data =>
          ⟨[(cursorAt url all p k).incr.url],
            some ((cursorAt url all p k).incr.UnmarshalJSON T.jsonUnmarshal data)⟩) = _
  rw [hg]
  simp only [ne_eq, not_true_eq_false, if_false, skArtistCalendar.UnmarshalJSON, hj]
  cases k <;> simp [cursorAt, pageOf, skArtistCalendar.incr]

/-- The state on entry to the loop satisfies the paging invariant. -/
theorem paged_init (url : String) (all : List skEvent) (p : Nat) (hall : 0 < all.length)
    (hcap : (all.length : Int) ≤ maxCap) :
    Paged url all p (get.init url all.length) := by
  have h : ¬ ((all.length : Int) < 0 ∨ (all.length : Int) > maxCap) := by omega
  have hc : (get.init url all.length).control = .running := if_neg h
  have hw : (get.init url all.length).worker = .fetching ⟨[], 0, 0, 0, url⟩ := if_neg h
  exact
    { err := fun he => absurd rfl he
      limit := rfl, ac := rfl
      drained := by simp [get.init]
      requests := rfl, last := Or.inl rfl
      fetching := fun tmp ht => by
        rw [hw] at ht
        simp only [Worker.fetching.injEq] at ht
        subst ht
        refine ⟨rfl, rfl, ?_, rfl, hc⟩
        show 0 * p < all.length
        omega
      sending := fun res hr => by rw [hw] at hr; cases hr
      idle := fun hi => by rw [hw] at hi; cases hi
      acking := fun hi => by rw [hw] at hi; cases hi
      done := fun hi => by rw [hw] at hi; cases hi
      hung := fun hi => by rw [hw] at hi; cases hi }

/-- In the paging invariant an error is recorded only while the worker holds a cursor. -/
theorem paged_err_none {url : String} {all : List skEvent} {p : Nat} {s : State}
    (hP : Paged url all p s) (hf : ∀ tmp, s.worker ≠ .fetching tmp)
    (hs : ∀ res, s.worker ≠ .sending res) : s.err = none := by
  by_contra he
  rcases hP.err he with ⟨tmp, h⟩ | ⟨res, h⟩
  · exact hf tmp h
  · exact hs res h

/-- Against a paging provider the return of `next` keeps the paging invariant. -/
theorem paged_workerNext {T : Transport} {url : String} {all : List skEvent} {p : Nat}
    (hT : Serves T url all p) (hurl : url ≠ "")
    (hmax : (all.length : Int) ≤ 9223372036854775807) {s s1 : State}
    (hP : Paged url all p s) (h : step T s .workerNext = some s1) :
    Paged url all p s1 ∧ fuel all p s1 < fuel all p s := by
  simp only [step] at h
  split at h
  · simp at h
  · rename_i tmp hw hc
    obtain ⟨rfl, hcalls, hk, hn, hrun⟩ := hP.fetching tmp hw
    have hreq := hP.requests
    rw [hcalls] at hreq
    rw [hreq, next_serves hT hurl hmax _ hk] at h
    simp only at h
    cases h
    refine ⟨?_, ?_⟩
    · exact
        { err := fun _ => Or.inr ⟨_, rfl⟩
          limit := hP.limit, ac := hP.ac, drained := hP.drained
          requests := by
            show (s.requests ++ [_]).length = s.calls + 1
            rw [List.length_append, List.length_singleton, hP.requests]
          last := hP.last
          fetching := fun tmp ht => by cases ht
          sending := fun res hr => by
            simp only [Worker.sending.injEq] at hr
            exact ⟨hr.symm, by show s.calls + 1 = _; rw [hcalls], hk, hn, hrun⟩
          idle := fun hi => by cases hi
          acking := fun hi => by cases hi
          done := fun hi => by cases hi
          hung := fun hi => by cases hi }
    · simp only [fuel, hw]
      omega
  · simp at h

/-- Handing the cursor to the worker keeps the paging invariant. -/
theorem paged_startFetch {T : Transport} {url : String} {all : List skEvent} {p : Nat}
    {s s1 : State}
    (hP : Paged url all p s) (h : step T s .startFetch = some s1) :
    Paged url all p s1 ∧ fuel all p s1 < fuel all p s := by
  simp only [step] at h
  split at h
  · rename_i hc hw
    split_ifs at h with hn
    cases h
    have he : s.err = none :=
      paged_err_none hP (fun tmp ht => by rw [hw] at ht; cases ht)
        (fun res hr => by rw [hw] at hr; cases hr)
    obtain ⟨hcalls, hk1, hnext, -⟩ := hP.idle hw
    refine ⟨?_, ?_⟩
    · exact
        { err := fun hne => absurd he hne
          limit := hP.limit, ac := hP.ac, drained := hP.drained, requests := hP.requests
          last := hP.last
          fetching := fun tmp ht => by
            simp only [Worker.fetching.injEq] at ht
            exact ⟨by rw [← ht]; exact hP.ac, hcalls, hnext.mp hn, rfl, hc⟩
          sending := fun res hr => by cases hr
          idle := fun hi => by cases hi
          acking := fun hi => by cases hi
          done := fun hi => by cases hi
          hung := fun hi => by cases hi }
    · simp only [fuel, hw, hc, hn]
      simp
  · simp at h

/-- With no error recorded at an idle worker the stop request cannot go out as
`failure`. -/
theorem paged_stopFailure {T : Transport} {url : String} {all : List skEvent} {p : Nat}
    {s : State} (hP : Paged url all p s) : step T s .stopFailure = none := by
  simp only [step]
  split
  · rename_i hc hw
    have he : s.err = none :=
      paged_err_none hP (fun tmp ht => by rw [hw] at ht; cases ht)
        (fun res hr => by rw [hw] at hr; cases hr)
    simp [State.failure, he]
  · rfl

/-- The acknowledgment keeps the paging invariant. -/
theorem paged_stopped {T : Transport} {url : String} {all : List skEvent} {p : Nat}
    {s s1 : State}
    (hP : Paged url all p s) (h : step T s .stopped = some s1) :
    Paged url all p s1 ∧ fuel all p s1 < fuel all p s := by
  simp only [step] at h
  split at h
  · rename_i hc hw
    have := (hP.acking hw).2.1
    rw [hc] at this; cases this
  · rename_i hc hw
    cases h
    have he : s.err = none :=
      paged_err_none hP (fun tmp ht => by rw [hw] at ht; cases ht)
        (fun res hr => by rw [hw] at hr; cases hr)
    obtain ⟨hcalls, -, hev, hk⟩ := hP.acking hw
    refine ⟨?_, ?_⟩
    · exact
        { err := fun hne => absurd he hne
          limit := hP.limit, ac := hP.ac, drained := hP.drained, requests := hP.requests
          last := hP.last
          fetching := fun tmp ht => by cases ht
          sending := fun res hr => by cases hr
          idle := fun hi => by cases hi
          acking := fun hi => by cases hi
          done := fun _ => ⟨hcalls, by show Control.returned (some s.events) none = _; rw [hev],
            hk⟩
          hung := fun hi => by cases hi }
    · simp only [fuel, hw, hc]
      omega
  · simp at h

/-- What has been drained and what is queued are the entries of the pages received. -/
theorem paged_events_le {url : String} {all : List skEvent} {p : Nat} {s : State}
    (hP : Paged url all p s) :
    s.events.length + s.queue.length = min (s.pages.length * p) all.length := by
  have := congrArg List.length hP.drained
  simpa using this

/-- The stop request goes out as `success` only when every entry is in the result. -/
theorem paged_stopSuccess {T : Transport} {url : String} {all : List skEvent} {p : Nat}
    {s s1 : State}
    (hP : Paged url all p s) (h : step T s .stopSuccess = some s1) :
    Paged url all p s1 ∧ fuel all p s1 < fuel all p s := by
  simp only [step] at h
  split at h
  · rename_i hc hw
    split_ifs at h with hs
    cases h
    have hlen := paged_events_le hP
    have hd := hP.drained
    have hlim := hP.limit
    have he : s.err = none :=
      paged_err_none hP (fun tmp ht => by rw [hw] at ht; cases ht)
        (fun res hr => by rw [hw] at hr; cases hr)
    simp only [State.success, Bool.and_eq_true, Bool.not_eq_eq_eq_not, Bool.not_true,
      decide_eq_true_eq] at hs
    have hT : all.length = s.events.length := by
      have := hs.2.2
      rw [hlim] at this
      exact_mod_cast this
    have hq : s.queue = [] := List.length_eq_zero.mp (by omega)
    have hk : all.length ≤ s.pages.length * p := by omega
    have hev : s.events = all.map skEvent.Event := by
      rw [hq, List.map_nil, List.append_nil, List.take_of_length_le hk] at hd
      exact hd
    have hcalls := (hP.idle hw).1
    refine ⟨?_, ?_⟩
    · exact
        { err := fun hne => absurd he hne
          limit := hP.limit, ac := hP.ac, drained := hP.drained,
          requests := hP.requests, last := hP.last,
          fetching := fun tmp h => by cases h
          sending := fun res h => by cases h
          idle := fun h => by cases h
          acking := fun _ => ⟨hcalls, rfl, hev, hk⟩
          done := fun h => by cases h
          hung := fun h => by cases h }
    · simp only [fuel, hw, hc]
      omega
  · simp at h

/-- The first page has arrived once the queue is not empty, so the cursor is past page
0. -/
theorem paged_page_pos {url : String} {all : List skEvent} {p : Nat} {s : State}
    (hP : Paged url all p s) (hk1 : 1 ≤ s.pages.length) : s.ac.Page > 0 := by
  rw [hP.ac]
  obtain ⟨j, hj⟩ : ∃ j, s.pages.length = j + 1 := ⟨s.pages.length - 1, by omega⟩
  rw [hj]
  simp only [cursorAt]
  have : (0 : Int) ≤ (j : Int) := Int.ofNat_nonneg j
  push_cast
  omega

/-- A drain keeps the paging invariant, moves at least one event and touches nothing
else. -/
theorem paged_queueReady {T : Transport} {url : String} {all : List skEvent} {p : Nat}
    (hmax : (all.length : Int) ≤ 9223372036854775807) {s s1 : State}
    (hP : Paged url all p s) (h : step T s .queueReady = some s1) :
    Paged url all p s1 ∧ fuel all p s1 < fuel all p s := by
  simp only [step] at h
  split at h
  · rename_i hc
    split_ifs at h with hq
    cases h
    have hlen := paged_events_le hP
    have hlim := hP.limit
    have he : s.err = none := by
      cases hes : s.err with
      | none => rfl
      | some e => simp [State.queueReady, State.failure, hes] at hq
    simp only [State.queueReady, State.success, State.failure, he, Option.isSome_none,
      Bool.not_false, Bool.true_and, Bool.and_eq_true, Bool.not_eq_eq_eq_not, Bool.not_true,
      Bool.and_eq_false_imp, decide_eq_true_eq, decide_eq_false_iff_not] at hq
    obtain ⟨hns, hqpos⟩ := hq
    have hk1 : 1 ≤ s.pages.length := by
      rcases Nat.eq_zero_or_pos s.pages.length with h0 | h0
      · rw [h0, Nat.zero_mul, Nat.zero_min] at hlen; omega
      · exact h0
    have hpage : s.ac.Page > 0 := paged_page_pos hP hk1
    have hne : s.limit ≠ (s.events.length : Int) := hns hpage
    have hroom : s.events.length < all.length := by
      have h1 : s.events.length ≤ all.length := by omega
      rcases Nat.lt_or_eq_of_le h1 with h2 | h2
      · exact h2
      · exfalso; apply hne; rw [hlim, h2]
    have hchunk : 1 ≤ s.chunk ∧ s.chunk ≤ (s.queue.length : Int) := by
      unfold State.chunk
      simp only [hlim]
      rw [wrap64_eq _ (by omega) (by omega)]
      split_ifs <;> omega
    have hnn : ¬ s.chunk < 0 := by omega
    obtain ⟨c, hc0⟩ : ∃ c : Nat, s.chunk = (c : Int) := ⟨s.chunk.toNat, by omega⟩
    have hc1 : 1 ≤ c ∧ c ≤ s.queue.length := by omega
    have hnn1 : ¬ (c : Int) < 0 := by omega
    simp only [State.drain, hc0, hnn1, if_false, Int.toNat_ofNat]
    have hd : (s.events ++ (s.queue.take c).map skEvent.Event)
          ++ (s.queue.drop c).map skEvent.Event
          = (all.take (s.pages.length * p)).map skEvent.Event := by
      rw [List.append_assoc, ← List.map_append, List.take_append_drop]
      exact hP.drained
    have hP1 : Paged url all p
        { s with
          queue := s.queue.drop c
          events := s.events ++ (s.queue.take c).map skEvent.Event } :=
      { err := fun hne => absurd he hne
        limit := hP.limit, ac := hP.ac, drained := hd,
        requests := hP.requests, last := hP.last,
        fetching := hP.fetching
        sending := hP.sending
        idle := hP.idle
        acking := fun hw => by
          have := (hP.acking hw).2.1
          rw [hc] at this; cases this
        done := fun hw => by
          have := (hP.done hw).2.1
          rw [hc] at this; cases this
        hung := hP.hung }
    refine ⟨hP1, ?_⟩
    have hle := paged_events_le hP1
    have hgrow : (s.events ++ (s.queue.take c).map skEvent.Event).length > s.events.length := by
      simp only [List.length_append, List.length_map, List.length_take]
      omega
    simp only [fuel] at hle hgrow ⊢
    omega
  · simp at h

/-- The first `k + 1` pages are the first `k` pages followed by page `k + 1`. -/
theorem take_succ_mul {α : Type} (l : List α) (k p : Nat) :
    l.take ((k + 1) * p) = l.take (k * p) ++ (l.drop (k * p)).take p := by
  rw [Nat.succ_mul, List.take_add]

/-- Taking the response with page `k + 1` keeps the paging invariant and clears a
recorded timeout. -/
theorem paged_receive {T : Transport} {url : String} {all : List skEvent} {p : Nat}
    (hp : 0 < p) {s s1 : State}
    (hP : Paged url all p s) (h : step T s .receive = some s1) :
    Paged url all p s1 ∧ fuel all p s1 < fuel all p s := by
  simp only [step] at h
  split at h
  · rename_i res hc hw
    cases h
    obtain ⟨rfl, hcalls, hk, hn, -⟩ := hP.sending res hw
    have hlim := hP.limit
    have hlen := paged_events_le hP
    have hev : (cursorAt url all p (s.pages.length + 1)).Events
        = (all.drop (s.pages.length * p)).take p := rfl
    have hq : (if (cursorAt url all p (s.pages.length + 1)).Events.length > 0 then
          s.queue ++ (cursorAt url all p (s.pages.length + 1)).Events else s.queue)
        = s.queue ++ (all.drop (s.pages.length * p)).take p := by
      rw [hev]
      split_ifs with hpos
      · rfl
      · have : (all.drop (s.pages.length * p)).take p = [] :=
          List.length_eq_zero.mp (by omega)
        simp [this]
    have hl : (if s.limit = 0 ∨ s.limit > (cursorAt url all p (s.pages.length + 1)).TotalEntries
          then (cursorAt url all p (s.pages.length + 1)).TotalEntries else s.limit)
        = (all.length : Int) := by
      have : (cursorAt url all p (s.pages.length + 1)).TotalEntries = (all.length : Int) := rfl
      rw [this, hlim]
      split_ifs <;> rfl
    simp only [State.receive, hq, hl]
    have hd : s.events ++ (s.queue ++ (all.drop (s.pages.length * p)).take p).map skEvent.Event
        = (all.take ((s.pages.length + 1) * p)).map skEvent.Event := by
      rw [take_succ_mul, List.map_append, List.map_append, ← List.append_assoc, hP.drained]
    have hNat : (s.queue ++ (all.drop (s.pages.length * p)).take p).length
        + s.events.length = min ((s.pages.length + 1) * p) all.length := by
      have := congrArg List.length hd
      simp only [List.length_append, List.length_map, List.length_take] at this ⊢
      omega
    have hlen1 : ((s.queue ++ (all.drop (s.pages.length * p)).take p).length : Int)
        + (s.events.length : Int) = min ((s.pages.length + 1) * p) all.length := by
      exact_mod_cast hNat
    have hmul : (s.pages.length + 1) * p = s.pages.length * p + p := Nat.succ_mul _ _
    refine ⟨?_, ?_⟩
    · exact
        { err := fun hne => absurd rfl hne
          limit := rfl
          ac := by simp
          drained := by simpa using hd
          requests := hP.requests
          last := by simp; exact hk
          fetching := fun tmp h => by cases h
          sending := fun res h => by cases h
          idle := fun _ => by
            refine ⟨by simpa using hcalls, by simp, ?_, hc⟩
            show (if ((s.queue ++ (all.drop (s.pages.length * p)).take p).length : Int)
                + (s.events.length : Int) < (all.length : Int) then true else s.next) = true
              ↔ (s.pages ++ [cursorAt url all p (s.pages.length + 1)]).length * p < all.length
            rw [hlen1, hn, List.length_append, List.length_singleton]
            constructor
            · intro h1
              split_ifs at h1 with h2
              · have : min ((s.pages.length + 1) * p) all.length < all.length := by
                  exact_mod_cast h2
                omega
            · intro h1
              have : ((min ((s.pages.length + 1) * p) all.length : Nat) : Int) < all.length := by
                have : min ((s.pages.length + 1) * p) all.length < all.length := by omega
                exact_mod_cast this
              rw [if_pos this]
          acking := fun h => by cases h
          done := fun h => by cases h
          hung := fun h => by cases h }
    · simp only [fuel, hw, hc, hn, List.length_append, List.length_singleton, hmul]
      split_ifs <;> omega
  · simp at h

/-- At an idle worker some case of the `select` other than the timer is ready. -/
theorem paged_idle_ready {url : String} {all : List skEvent} {p : Nat} {s : State}
    (hP : Paged url all p s) (hw : s.worker = .idle) :
    s.next = true ∨ s.success = true ∨ s.queueReady = true := by
  obtain ⟨hcalls, hk1, hnext, hc⟩ := hP.idle hw
  have he : s.err = none :=
    paged_err_none hP (fun tmp ht => by rw [hw] at ht; cases ht)
      (fun res hr => by rw [hw] at hr; cases hr)
  by_cases hn : s.next = true
  · exact Or.inl hn
  · have hcover : all.length ≤ s.pages.length * p := by
      by_contra hlt
      exact hn (hnext.mpr (by omega))
    have hlen := paged_events_le hP
    have hpage : s.ac.Page > 0 := paged_page_pos hP hk1
    by_cases hfull : s.limit = (s.events.length : Int)
    · exact Or.inr (Or.inl (by simp [State.success, State.failure, he, hpage, hfull]))
    · have hlim := hP.limit
      have : s.events.length ≠ all.length := by
        intro h; apply hfull; rw [hlim, h]
      have hqpos : 0 < s.queue.length := by omega
      exact Or.inr (Or.inr (by
        simp [State.queueReady, State.success, State.failure, he, hfull, hqpos]))

/-- When nothing but the timer is ready, none of the other five cases can fire. -/
theorem waiting_elim {T : Transport} {s : State} (h : s.waiting T = true) :
    step T s .stopFailure = none ∧ step T s .stopSuccess = none ∧
    step T s .startFetch = none ∧ step T s .receive = none ∧
    step T s .queueReady = none := by
  simpa [State.waiting] using h

/-- A patient timer fires only while the worker is inside `next`, and keeps the paging
invariant and the fuel. -/
theorem paged_timeout {T : Transport} {url : String} {all : List skEvent} {p : Nat}
    {s s1 : State} (hwait : s.waiting T = true)
    (hP : Paged url all p s) (h : step T s .timeout = some s1) :
    Paged url all p s1 ∧ fuel all p s1 = fuel all p s := by
  simp only [step] at h
  split at h
  · rename_i hc
    cases h
    have hbusy : ∃ tmp, s.worker = .fetching tmp := by
      cases hw : s.worker with
      | hung => exact absurd hw hP.hung
      | done => have := (hP.done hw).2.1; rw [hc] at this; cases this
      | acking => have := (hP.acking hw).2.1; rw [hc] at this; cases this
      | sending res =>
        have := (waiting_elim hwait).2.2.2.1
        simp [step, hc, hw] at this
      | fetching tmp => exact ⟨tmp, rfl⟩
      | idle =>
        exfalso
        obtain ⟨-, h2, h3, -, h5⟩ := waiting_elim hwait
        rcases paged_idle_ready hP hw with h1 | h1 | h1
        · simp [step, hc, hw, h1] at h3
        · simp [step, hc, hw, h1] at h2
        · simp [step, hc, h1] at h5
    refine ⟨?_, rfl⟩
    exact
      { err := fun _ => Or.inl hbusy
        limit := hP.limit, ac := hP.ac, drained := hP.drained, requests := hP.requests
        last := hP.last, fetching := hP.fetching, sending := hP.sending, idle := hP.idle
        acking := hP.acking, done := hP.done, hung := hP.hung }
  · simp at h

/-- Every step of a run with a patient timer keeps the paging invariant; every step but
the timer uses up fuel. -/
theorem paged_step {T : Transport} {url : String} {all : List skEvent} {p : Nat}
    (hT : Serves T url all p) (hurl : url ≠ "") (hp : 0 < p)
    (hmax : (all.length : Int) ≤ 9223372036854775807) {s s1 : State} {a : Action}
    (hpat : a = .timeout → s.waiting T = true) (hP : Paged url all p s)
    (h : step T s a = some s1) :
    Paged url all p s1 ∧ fuel all p s1 + (if a = .timeout then 0 else 1) ≤ fuel all p s := by
  cases a with
  | timeout =>
    obtain ⟨h1, h2⟩ := paged_timeout (hpat rfl) hP h
    exact ⟨h1, by simp [h2]⟩
  | workerNext =>
    obtain ⟨h1, h2⟩ := paged_workerNext hT hurl hmax hP h
    exact ⟨h1, by simp; omega⟩
  | stopFailure =>
    rw [paged_stopFailure hP] at h
    cases h
  | stopSuccess =>
    obtain ⟨h1, h2⟩ := paged_stopSuccess hP h
    exact ⟨h1, by simp; omega⟩
  | startFetch =>
    obtain ⟨h1, h2⟩ := paged_startFetch hP h
    exact ⟨h1, by simp; omega⟩
  | receive =>
    obtain ⟨h1, h2⟩ := paged_receive hp hP h
    exact ⟨h1, by simp; omega⟩
  | queueReady =>
    obtain ⟨h1, h2⟩ := paged_queueReady hmax hP h
    exact ⟨h1, by simp; omega⟩
  | stopped =>
    obtain ⟨h1, h2⟩ := paged_stopped hP h
    exact ⟨h1, by simp; omega⟩

/-- A run with a patient timer against a paging provider keeps the invariant, and its
steps other than the timer are no more than the fuel it started with. -/
theorem paged_run {T : Transport} {url : String} {all : List skEvent} {p : Nat}
    (hT : Serves T url all p) (hurl : url ≠ "") (hp : 0 < p)
    (hmax : (all.length : Int) ≤ 9223372036854775807) (sched : List Action) {s s1 : State}
    (hpat : patient T s sched = true) (hP : Paged url all p s)
    (h : run T s sched = some s1) :
    Paged url all p s1 ∧ fuel all p s1 + work sched ≤ fuel all p s := by
  induction sched generalizing s with
  | nil =>
    simp only [run, Option.some.injEq] at h
    subst h
    exact ⟨hP, by simp [work]⟩
  | cons a as ih =>
    simp only [run] at h
    split at h
    · simp at h
    · rename_i s2 hs
      simp only [patient, hs, Bool.and_eq_true] at hpat
      have ha : a = .timeout → s.waiting T = true := by
        intro e
        simpa [e] using hpat.1
      obtain ⟨hP2, hf2⟩ := paged_step hT hurl hp hmax ha hP hs
      obtain ⟨hP1, hf1⟩ := ih hpat.2 hP2 h
      refine ⟨hP1, ?_⟩
      have hw : work (a :: as) = (if a = .timeout then 0 else 1) + work as := by
        by_cases e : a = .timeout
        · simp [work, e]
        · simp [work, e, Nat.add_comm]
      rw [hw]
      omega

/-- A schedule without the timer has a patient timer. -/
theorem patient_of_no_timeout (T : Transport) (sched : List Action) (s : State)
    (hno : Action.timeout ∉ sched) : patient T s sched = true := by
  induction sched generalizing s with
  | nil => rfl
  | cons a as ih =>
    have ha : a ≠ .timeout := fun e => hno (e ▸ List.mem_cons_self _ _)
    simp only [patient, ha, if_false, Bool.true_and]
    split
    · rfl
    · exact ih _ fun hm => hno (List.mem_cons_of_mem _ hm)

/-- Against a paging provider a run that has not returned can always take a step other
than the timer. -/
theorem paged_progress {T : Transport} {url : String} {all : List skEvent} {p : Nat}
    (hT : Serves T url all p) (hurl : url ≠ "")
    (hmax : (all.length : Int) ≤ 9223372036854775807) {s : State}
    (hP : Paged url all p s) (hnr : ∀ ev e, s.control ≠ .returned ev e) :
    ∃ a s1, a ≠ Action.timeout ∧ step T s a = some s1 := by
  cases hw : s.worker with
  | hung => exact absurd hw hP.hung
  | done => exact absurd (hP.done hw).2.1 (hnr _ _)
  | acking =>
    have hc := (hP.acking hw).2.1
    exact ⟨.stopped, _, by simp, by simp only [step, hc, hw]; rfl⟩
  | sending res =>
    have hc := (hP.sending res hw).2.2.2.2
    exact ⟨.receive, _, by simp, by simp only [step, hc, hw]; rfl⟩
  | fetching tmp =>
    obtain ⟨rfl, hcalls, hk, hn, hc⟩ := hP.fetching tmp hw
    have hreq := hP.requests
    rw [hcalls] at hreq
    have hs : ∃ s1, step T s .workerNext = some s1 := by
      simp only [step, hc, hw]
      rw [hreq, next_serves hT hurl hmax _ hk]
      exact ⟨_, rfl⟩
    obtain ⟨s1, hs⟩ := hs
    exact ⟨.workerNext, s1, by simp, hs⟩
  | idle =>
    have hc := (hP.idle hw).2.2.2
    rcases paged_idle_ready hP hw with hn | hs | hq
    · exact ⟨.startFetch, _, by simp, by simp only [step, hc, hw, hn, if_true]; rfl⟩
    · exact ⟨.stopSuccess, _, by simp, by simp only [step, hc, hw, hs, if_true]; rfl⟩
    · exact ⟨.queueReady, _, by simp, by simp only [step, hc, hq, if_true]; rfl⟩

/-- Against a paging provider a run with a patient timer that returned has returned all
entries, converted, and made exactly as many calls of `next`, each with one request, as
pages are needed: the last page but one did not cover the entries, the last one does. -/
theorem paged_returned {url : String} {all : List skEvent} {p : Nat} (hall : 0 < all.length)
    {s : State} (hP : Paged url all p s) {ev : Option (List Event)} {e : Option String}
    (h : s.control = .returned ev e) :
    ev = some (all.map skEvent.Event) ∧ e = none ∧
      s.calls = pagesNeeded all.length p ∧ s.requests.length = s.calls ∧
      (s.calls - 1) * p < all.length ∧ all.length ≤ s.calls * p := by
  have hdone : s.worker = .done := by
    cases hw : s.worker with
    | hung => exact absurd hw hP.hung
    | done => rfl
    | acking => have := (hP.acking hw).2.1; rw [h] at this; cases this
    | sending res => have := (hP.sending res hw).2.2.2.2; rw [h] at this; cases this
    | fetching tmp => have := (hP.fetching tmp hw).2.2.2.2; rw [h] at this; cases this
    | idle => have := (hP.idle hw).2.2.2; rw [h] at this; cases this
  obtain ⟨hcalls, hc, hcover⟩ := hP.done hdone
  rw [h] at hc
  simp only [Control.returned.injEq] at hc
  have hlast : (s.pages.length - 1) * p < all.length := by
    rcases hP.last with h0 | hlast
    · rw [h0, Nat.zero_mul] at hcover; omega
    · exact hlast
  have hk : s.pages.length = pagesNeeded all.length p := by
    obtain ⟨j, hj⟩ : ∃ j, s.pages.length = j + 1 := by
      cases hlen : s.pages.length with
      | zero => rw [hlen, Nat.zero_mul] at hcover; omega
      | succ j => exact ⟨j, rfl⟩
    rw [hj] at hcover hlast ⊢
    have hmul : (j + 1) * p = j * p + p := Nat.succ_mul _ _
    simp only [Nat.add_sub_cancel] at hlast
    unfold pagesNeeded
    symm
    apply Nat.div_eq_of_lt_le
    · rw [hmul]; omega
    · rw [Nat.succ_mul, hmul]; omega
  refine ⟨hc.1, hc.2, ?_, hP.requests, ?_, ?_⟩
  · rw [hcalls, hk]
  · rw [hcalls]; exact hlast
  · rw [hcalls]; exact hcover

/-- Against a paging provider some continuation without the timer of any run with a
patient timer returns. -/
theorem paged_terminates {T : Transport} {url : String} {all : List skEvent} {p : Nat}
    (hT : Serves T url all p) (hurl : url ≠ "") (hp : 0 < p)
    (hmax : (all.length : Int) ≤ 9223372036854775807) (n : Nat) :
    ∀ s : State, Paged url all p s → fuel all p s ≤ n →
      ∃ sched s1 ev e, Action.timeout ∉ sched ∧ run T s sched = some s1 ∧
        s1.control = .returned ev e := by
  induction n with
  | zero =>
    intro s hP hf
    by_cases hr : ∃ ev e, s.control = .returned ev e
    · obtain ⟨ev, e, hr⟩ := hr
      exact ⟨[], s, ev, e, by simp, rfl, hr⟩
    · obtain ⟨a, s1, ha, hs⟩ := paged_progress hT hurl hmax hP (fun ev e h => hr ⟨ev, e, h⟩)
      have := (paged_step hT hurl hp hmax (fun e => absurd e ha) hP hs).2
      simp only [ha, if_false] at this
      omega
  | succ n ih =>
    intro s hP hf
    by_cases hr : ∃ ev e, s.control = .returned ev e
    · obtain ⟨ev, e, hr⟩ := hr
      exact ⟨[], s, ev, e, by simp, rfl, hr⟩
    · obtain ⟨a, s1, ha, hs⟩ := paged_progress hT hurl hmax hP (fun ev e h => hr ⟨ev, e, h⟩)
      obtain ⟨hP1, hf1⟩ := paged_step hT hurl hp hmax (fun e => absurd e ha) hP hs
      simp only [ha, if_false] at hf1
      obtain ⟨sched, s2, ev, e, hno, hrun, hret⟩ := ih s1 hP1 (by omega)
      refine ⟨a :: sched, s2, ev, e, ?_, ?_, hret⟩
      · intro hm
        rcases List.mem_cons.mp hm with h1 | h1
        · exact ha h1.symm
        · exact hno h1
      · simp only [run, hs]
        exact hrun

/-- The fuel on entry to the loop: five steps per entry and four more. -/
theorem fuel_init (url : String) (all : List skEvent) (p : Nat)
    (hcap : (all.length : Int) ≤ maxCap) :
    fuel all p (get.init url all.length) = 5 * all.length + 4 := by
  have h : ¬ ((all.length : Int) < 0 ∨ (all.length : Int) > maxCap) := by omega
  have hc : (get.init url all.length).control = .running := if_neg h
  have hw : (get.init url all.length).worker = .fetching ⟨[], 0, 0, 0, url⟩ := if_neg h
  have hn : (get.init url all.length).next = false := rfl
  have hp : (get.init url all.length).pages = [] := rfl
  have he : (get.init url all.length).events = [] := rfl
  simp only [fuel, hc, hw, hn, hp, he, List.length_nil, Nat.zero_mul, Nat.sub_zero]
  simp
  omega

/-- The URL-keyed mock is a paging provider of `all23` at 10 per page. -/
theorem pagedT_serves : Serves pagedT "u" all23 10 := by
  intro k hk
  have h23 : all23.length = 23 := by decide
  have hk3 : k < 3 := by omega
  interval_cases k
  · exact ⟨_, _, rfl, rfl⟩
  · exact ⟨_, _, rfl, rfl⟩
  · exact ⟨_, _, rfl, rfl⟩

/-- C5, refuted as stated. (a) Against a provider without entries (T = 0, pages of 10)
`get` with limit 0 makes one call of `next`, for the URL without page parameters, and
returns no events, while ceil(0/10) = 0. (b) Against the paging mock (T = 23, p = 10,
limit 23) a run in which the timer fires after the first page, although the hand-over of
the cursor and a drain are ready, returns (nil, "API Timeout") after one call. -/
theorem get_paged_provider_fails :
    (Serves emptyT "u" [] 10 ∧ emptyT.jsonUnmarshal [] = .ok (pageOf [] 10 1) ∧
      pagesNeeded ([] : List skEvent).length 10 = 0 ∧
      ∃ s, run emptyT (get.init "u" 0) emptySchedule = some s ∧
        s.control = .returned (some []) none ∧ s.calls = 1 ∧ s.requests = ["u"]) ∧
    (Serves pagedT "u" all23 10 ∧
      ∃ s, run pagedT (get.init "u" 23) stalledSchedule = some s ∧
        s.control = .returned none (some "API Timeout") ∧ s.calls = 1) :=
  ⟨⟨fun k hk => absurd hk (by simp), rfl, by decide, ⟨_, rfl, rfl, rfl, rfl⟩⟩,
   ⟨pagedT_serves, ⟨_, rfl, rfl, rfl⟩⟩⟩

/-- C5, amended. Against a provider that serves `all` (T entries, with 0 < T and T a
capacity `make` accepts) at a non-empty url in pages of p > 0 events with
totalEntries = T, perPage = p and page = the requested page number, `Calendar.get` with
limit = T (a) has a run that returns all T events, converted, once each and in provider
order, after exactly ceil(T/p) calls of `skArtistCalendar.next`, each with one request;
(b) in every run in which the timer fires only while no other case of the `select` is
ready, the steps other than the timer number at most 5T + 4, a step other than the timer
is possible as long as `get` has not returned, and every return is that of (a): the
same events, nil error, exactly ceil(T/p) calls, which is the number of pages that
covers T entries while one page less does not. -/
theorem get_paged_provider (T : Transport) (url : String) (all : List skEvent) (p : Nat)
    (hT : Serves T url all p) (hurl : url ≠ "") (hp : 0 < p) (hall : 0 < all.length)
    (hcap : (all.length : Int) ≤ maxCap) :
    (∃ sched s, Action.timeout ∉ sched ∧
      run T (get.init url all.length) sched = some s ∧
      s.control = .returned (some (all.map skEvent.Event)) none ∧
      s.calls = pagesNeeded all.length p ∧ s.requests.length = s.calls) ∧
    (∀ sched s, patient T (get.init url all.length) sched = true →
      run T (get.init url all.length) sched = some s →
      work sched ≤ 5 * all.length + 4 ∧
      ((∀ ev e, s.control ≠ .returned ev e) →
        ∃ a s1, a ≠ Action.timeout ∧ step T s a = some s1) ∧
      (∀ ev e, s.control = .returned ev e →
        ev = some (all.map skEvent.Event) ∧ e = none ∧
        s.calls = pagesNeeded all.length p ∧ s.requests.length = s.calls ∧
        (s.calls - 1) * p < all.length ∧ all.length ≤ s.calls * p)) := by
  have hcapv : maxCap = 718048409976 := rfl
  have hmax : (all.length : Int) ≤ 9223372036854775807 := by omega
  have h0 := paged_init url all p hall hcap
  have hf0 := fuel_init url all p hcap
  constructor
  · obtain ⟨sched, s, ev, e, hno, hrun, hret⟩ :=
      paged_terminates hT hurl hp hmax _ _ h0 (le_refl _)
    have hP := (paged_run hT hurl hp hmax sched (patient_of_no_timeout T sched _ hno) h0
      hrun).1
    obtain ⟨rfl, rfl, hc, hr, -, -⟩ := paged_returned hall hP hret
    exact ⟨sched, s, hno, hrun, hret, hc, hr⟩
  · intro sched s hpat hrun
    obtain ⟨hP, hf⟩ := paged_run hT hurl hp hmax sched hpat h0 hrun
    refine ⟨by omega, paged_progress hT hurl hmax hP, ?_⟩
    intro ev e hret
    exact paged_returned hall hP hret

/-- Witness of the amended C5: pages of 10 events, 23 entries whose conversions are
pairwise different, limit 23.  The undisturbed interleaving makes exactly 3 calls, for
the URLs of pages 1, 2 and 3, and returns the 23 events; the interleaving with slow
answers, in which the timer fires twice while a request is in flight, has a patient
timer, and the theorem applied to it gives the same 23 events after
ceil(23/10) = 3 calls. -/
theorem get_paged_provider_witness :
    all23.length = 23 ∧ pagesNeeded all23.length 10 = 3 ∧
    (all23.map skEvent.Event).Nodup ∧
    (∃ s, run pagedT (get.init "u" 23) pagedSchedule = some s ∧
      s.control = .returned (some (all23.map skEvent.Event)) none ∧
      s.calls = 3 ∧
      s.requests = ["u", "u&page=2&per_page=10", "u&page=3&per_page=10"]) ∧
    patient pagedT (get.init "u" all23.length) slowSchedule = true ∧
    Action.timeout ∈ slowSchedule ∧
    (∃ s, run pagedT (get.init "u" all23.length) slowSchedule = some s ∧
      s.control = .returned (some (all23.map skEvent.Event)) none ∧ s.calls = 3 ∧
      (work slowSchedule ≤ 5 * all23.length + 4 ∧
      ((∀ ev e, s.control ≠ .returned ev e) →
        ∃ a s1, a ≠ Action.timeout ∧ step pagedT s a = some s1) ∧
      (∀ ev e, s.control = .returned ev e →
        ev = some (all23.map skEvent.Event) ∧ e = none ∧
        s.calls = pagesNeeded all23.length 10 ∧ s.requests.length = s.calls ∧
        (s.calls - 1) * 10 < all23.length ∧ all23.length ≤ s.calls * 10))) :=
  ⟨by decide, by decide, by decide, ⟨_, rfl, rfl, rfl, rfl⟩, rfl, by decide,
    ⟨_, rfl, rfl, rfl,
      (get_paged_provider pagedT "u" all23 10 pagedT_serves (by decide) (by decide)
        (by decide) (by decide)).2 slowSchedule _ rfl rfl⟩⟩

/-- While the first request is unanswered every step keeps `get` stalled. -/
theorem stalled_step {T : Transport} {url : String} (hurl : url ≠ "")
    (hsilent : T.httpGet 0 url = .never) {s s1 : State} (a : Action)
    (hS : Stalled url s) (h : step T s a = some s1) : Stalled url s1 := by
  obtain ⟨hc, hq, hw⟩ := hS
  cases a with
  | workerNext =>
    simp only [step] at h
    split at h
    · simp at h
    · rename_i tmp hw1 hc1
      rcases hw with ⟨hw, hreq⟩ | hw | ⟨hw, -⟩
      · rw [hw] at hw1
        simp only [Worker.fetching.injEq] at hw1
        subst hw1
        have hlen : ¬ url.length < 1 := fun hl => hurl ((length_lt_one_iff_empty _).mp hl)
        have hres : (skArtistCalendar.next (T.httpGet s.requests.length) T.jsonUnmarshal
            ⟨[], 0, 0, 0, url⟩).result = none := by
          rw [hreq]
          simp [skArtistCalendar.next, hlen, skArtistCalendar.url, hsilent]
        rw [hres] at h
        simp only [Option.some.injEq] at h
        subst h
        exact ⟨hc, hq, Or.inr (Or.inl rfl)⟩
      · rw [hw] at hw1; cases hw1
      · rw [hw] at hw1; cases hw1
    · simp at h
  | stopFailure =>
    simp only [step] at h
    split at h
    · rename_i hc1 hw1
      rcases hw with ⟨hw, -⟩ | hw | ⟨-, hp⟩
      · rw [hw] at hw1; cases hw1
      · rw [hw] at hw1; cases hw1
      · rw [hp] at hc1; cases hc1
    · simp at h
  | stopSuccess =>
    simp only [step] at h
    split at h
    · rename_i hc1 hw1
      rcases hw with ⟨hw, -⟩ | hw | ⟨-, hp⟩
      · rw [hw] at hw1; cases hw1
      · rw [hw] at hw1; cases hw1
      · rw [hp] at hc1; cases hc1
    · simp at h
  | startFetch =>
    simp only [step] at h
    split at h
    · rename_i hc1 hw1
      rcases hw with ⟨hw, -⟩ | hw | ⟨-, hp⟩
      · rw [hw] at hw1; cases hw1
      · rw [hw] at hw1; cases hw1
      · rw [hp] at hc1; cases hc1
    · simp at h
  | receive =>
    simp only [step] at h
    split at h
    · rename_i res hc1 hw1
      rcases hw with ⟨hw, -⟩ | hw | ⟨hw, -⟩
      · rw [hw] at hw1; cases hw1
      · rw [hw] at hw1; cases hw1
      · rw [hw] at hw1; cases hw1
    · simp at h
  | queueReady =>
    simp only [step] at h
    split at h
    · split_ifs at h with hr
      simp [State.queueReady, hq] at hr
    · simp at h
  | timeout =>
    simp only [step] at h
    split at h
    · simp only [Option.some.injEq] at h
      subst h
      exact ⟨hc, hq, hw⟩
    · simp at h
  | stopped =>
    simp only [step] at h
    split at h
    · rename_i hc1 hw1
      rcases hc with hc | hc <;> rw [hc] at hc1 <;> cases hc1
    · rename_i hc1 hw1
      rcases hc with hc | hc <;> rw [hc] at hc1 <;> cases hc1
    · simp at h

/-- While the first request is unanswered every run keeps `get` stalled. -/
theorem stalled_run {T : Transport} {url : String} (hurl : url ≠ "")
    (hsilent : T.httpGet 0 url = .never) (sched : List Action) {s s1 : State}
    (hS : Stalled url s) (h : run T s sched = some s1) : Stalled url s1 := by
  induction sched generalizing s with
  | nil => simp only [run, Option.some.injEq] at h; subst h; exact hS
  | cons a as ih =>
    simp only [run] at h
    split at h
    · simp at h
    · rename_i s2 hs
      exact ih (stalled_step hurl hsilent a hS hs) h

/-- C2, evaluated on the code. With a non-empty url and a transport that never answers
the first page request, no run of `Calendar.get`, however often the 30-second timer
fires, ever returns: the controller stays in its loop, the stop request cannot be
delivered (the worker is inside `next`, not at its `select`), and the worker never
acknowledges a stop. -/
theorem get_never_returns_on_silent_transport (T : Transport) (url : String) (limit : Int)
    (hurl : url ≠ "") (hsilent : T.httpGet 0 url = .never) (sched : List Action) (s : State)
    (hrun : run T (get.init url limit) sched = some s) :
    (∀ ev e, s.control ≠ .returned ev e) ∧ step T s .stopFailure = none ∧
      s.worker ≠ .acking ∧ s.worker ≠ .done := by
  have h0 : Stalled url (get.init url limit) := by
    unfold Stalled
    by_cases hl : limit < 0 ∨ limit > maxCap
    · have hc : (get.init url limit).control = .panicked := if_pos hl
      have hw : (get.init url limit).worker = .idle := if_pos hl
      exact ⟨Or.inr hc, rfl, Or.inr (Or.inr ⟨hw, hc⟩)⟩
    · have hc : (get.init url limit).control = .running := if_neg hl
      have hw : (get.init url limit).worker = .fetching ⟨[], 0, 0, 0, url⟩ := if_neg hl
      exact ⟨Or.inl hc, rfl, Or.inl ⟨hw, rfl⟩⟩
  obtain ⟨hc, hq, hw⟩ := stalled_run hurl hsilent sched h0 hrun
  refine ⟨?_, ?_, ?_, ?_⟩
  · intro ev e h
    rcases hc with hc | hc <;> rw [hc] at h <;> cases h
  · rcases hw with ⟨hw, -⟩ | hw | ⟨-, hp⟩
    · simp [step, hw]
    · simp [step, hw]
    · simp [step, hp]
  · rcases hw with ⟨hw, -⟩ | hw | ⟨hw, -⟩ <;> rw [hw] <;> simp
  · rcases hw with ⟨hw, -⟩ | hw | ⟨hw, -⟩ <;> rw [hw] <;> simp

/-- Witness for C2: against the silent transport, after the request went out and the
timer fired twice, the timeout error is recorded and `get` has still not returned. -/
theorem get_never_returns_on_silent_transport_witness :
    ∃ s, run silentT (get.init "u" 1) [.workerNext, .timeout, .timeout] = some s ∧
      s.err = some "API Timeout" ∧ s.requests = ["u"] ∧
      ((∀ ev e, s.control ≠ .returned ev e) ∧ step silentT s .stopFailure = none ∧
        s.worker ≠ .acking ∧ s.worker ≠ .done) :=
  ⟨_, rfl, rfl, rfl,
    get_never_returns_on_silent_transport silentT "u" 1 (by decide) rfl
      [.workerNext, .timeout, .timeout] _ rfl⟩

/-- C3, evaluated on the code. Against the one-entry provider with limit 1, the timer
fires while the first request is in flight and the timeout error is recorded; the
answer then arrives, the `receive` case overwrites `err` with nil, and `get` returns
successfully with the event. -/
theorem get_recorded_timeout_is_cleared :
    ∃ s1 s2 s,
      run soloT (get.init "u" 1) [.timeout] = some s1 ∧
      s1.err = some "API Timeout" ∧ s1.failure = true ∧
      step soloT s1 .stopFailure = none ∧
      run soloT s1 [.workerNext, .receive] = some s2 ∧ s2.err = none ∧
      run soloT s1 lateSchedule = some s ∧
      s.control = .returned (some [(skEvent.withID 7).Event]) none :=
  ⟨_, _, _, rfl, rfl, rfl, rfl, rfl, rfl, rfl, rfl⟩

/-- The drain step in the nominal case: when the result does not exceed `limit` (a Go
`int`), the `queueReady` case moves `chunk` events from the front of the queue to the
end of the result, `chunk` being the smallest of 5, the room left under `limit` and the
length of the queue, so that the result still does not exceed `limit`. -/
theorem drain_within_limit (T : Transport) (s s1 : State)
    (hroom : (s.events.length : Int) ≤ s.limit) (hmax : s.limit ≤ 9223372036854775807)
    (h : step T s .queueReady = some s1) :
    0 ≤ s.chunk ∧ s.chunk ≤ 5 ∧ s.chunk ≤ (s.queue.length : Int) ∧
    s.chunk ≤ s.limit - (s.events.length : Int) ∧
    s1.events = s.events ++ (s.queue.take s.chunk.toNat).map skEvent.Event ∧
    s1.queue = s.queue.drop s.chunk.toNat ∧
    (s1.events.length : Int) ≤ s1.limit ∧ s1.control = .running := by
  simp only [step] at h
  split at h
  · rename_i hc
    split_ifs at h with hq
    cases h
    have hw : wrap64 (s.limit - (s.events.length : Int)) = s.limit - (s.events.length : Int) :=
      wrap64_eq _ (by omega) (by omega)
    have hchunk : 0 ≤ s.chunk ∧ s.chunk ≤ 5 ∧ s.chunk ≤ (s.queue.length : Int) ∧
        s.chunk ≤ s.limit - (s.events.length : Int) := by
      unfold State.chunk
      simp only [hw]
      split_ifs <;> omega
    have hnn : ¬ s.chunk < 0 := by omega
    refine ⟨hchunk.1, hchunk.2.1, hchunk.2.2.1, hchunk.2.2.2, ?_, ?_, ?_, ?_⟩
    · simp only [State.drain, hnn, if_false]
    · simp only [State.drain, hnn, if_false]
    · simp only [State.drain, hnn, if_false, List.length_append, List.length_map,
        List.length_take]
      have : ((min s.chunk.toNat s.queue.length : Nat) : Int) ≤ s.chunk := by
        have : min s.chunk.toNat s.queue.length ≤ s.chunk.toNat := Nat.min_le_left _ _
        omega
      push_cast at this ⊢
      omega
    · simp only [State.drain, hnn, if_false, hc]
  · simp at h

/-- C7, evaluated on the code. (a) Against a provider whose second page reports
`totalEntries` 1 after two events were drained, `limit` drops to 1, the next drain
computes the chunk size -1, moves nothing and panics, with 2 events in a result whose
limit is 1. (b) When the second page reports the smallest `int`, `limit - len(events)`
wraps around, and the next drain completes and moves one more event into a result that
already exceeded `limit`. -/
theorem get_drain_below_limit :
    (∃ s1 s,
      run droppedT (get.init "u" 3) droppedSchedule = some s1 ∧
      s1.queueReady = true ∧ s1.limit = 1 ∧ s1.events.length = 2 ∧ s1.chunk = -1 ∧
      step droppedT s1 .queueReady = some s ∧
      s.control = .panicked ∧ s.events = s1.events ∧ s.limit < (s.events.length : Int)) ∧
    (∃ s1 s,
      run wrappedT (get.init "u" 3) droppedSchedule = some s1 ∧
      s1.queueReady = true ∧ s1.events.length = 2 ∧ s1.chunk = 1 ∧
      step wrappedT s1 .queueReady = some s ∧
      s.control = .running ∧ s.events.length = 3 ∧ s.limit < (s.events.length : Int)) :=
  ⟨⟨_, _, rfl, rfl, rfl, rfl, rfl, rfl, rfl, rfl, by decide⟩,
   ⟨_, _, rfl, rfl, rfl, rfl, rfl, rfl, rfl, by decide⟩⟩

/-- The test at the head of the loop keeps the invariant of `All`. -/
theorem allInv_head {past future : Option getResponse} {s : AllState}
    (hr : s.returned = none) (hI : AllInv past future s) : AllInv past future s.head := by
  obtain ⟨hp, hf, -⟩ := hI
  unfold AllState.head
  split
  · rename_i p f hpe hfe
    refine ⟨hp, hf, ?_⟩
    intro r h
    simp only [Option.some.injEq] at h
    subst h
    exact Or.inl ⟨f, p, rfl, hf f hfe, hp p hpe⟩
  · refine ⟨hp, hf, ?_⟩
    intro r h
    rw [hr] at h
    cases h

/-- Every iteration of the loop of `All` keeps its invariant. -/
theorem allInv_step {past future : Option getResponse} {s s1 : AllState} (a : AllAction)
    (hI : AllInv past future s) (h : All.step past future s a = some s1) :
    AllInv past future s1 := by
  cases a with
  | past =>
    simp only [All.step] at h
    split at h
    · rename_i res hr ht
      split at h
      · rename_i err herr
        cases h
        refine ⟨hI.1, hI.2.1, ?_⟩
        intro r hret
        simp only [Option.some.injEq] at hret
        subst hret
        refine Or.inr ⟨err, rfl, Or.inr (Or.inl ⟨res.Events, ?_⟩)⟩
        rw [← herr]
      · rename_i herr
        cases h
        apply allInv_head
        · exact hr
        refine ⟨?_, hI.2.1, ?_⟩
        · intro p hp
          simp only at hp
          rw [← hp, ← herr]
        · intro r hret
          rw [hr] at hret
          cases hret
    · simp at h
  | future =>
    simp only [All.step] at h
    split at h
    · rename_i res hr ht
      split at h
      · rename_i err herr
        cases h
        refine ⟨hI.1, hI.2.1, ?_⟩
        intro r hret
        simp only [Option.some.injEq] at hret
        subst hret
        refine Or.inr ⟨err, rfl, Or.inr (Or.inr ⟨res.Events, ?_⟩)⟩
        rw [← herr]
      · rename_i herr
        cases h
        apply allInv_head
        · exact hr
        refine ⟨hI.1, ?_, ?_⟩
        · intro f hf
          simp only at hf
          rw [← hf, ← herr]
        · intro r hret
          rw [hr] at hret
          cases hret
    · simp at h
  | timeout =>
    simp only [All.step] at h
    split at h
    · cases h
      refine ⟨hI.1, hI.2.1, ?_⟩
      intro r hret
      simp only [Option.some.injEq] at hret
      subst hret
      exact Or.inr ⟨_, rfl, Or.inl rfl⟩
    · simp at h

/-- Every run of the loop of `All` keeps its invariant. -/
theorem allInv_run {past future : Option getResponse} (sched : List AllAction)
    {s s1 : AllState} (hI : AllInv past future s)
    (h : All.run past future s sched = some s1) : AllInv past future s1 := by
  induction sched generalizing s with
  | nil => simp only [All.run, Option.some.injEq] at h; subst h; exact hI
  | cons a as ih =>
    simp only [All.run] at h
    split at h
    · simp at h
    · rename_i s2 hs
      exact ih (allInv_step a hI hs) h

/-- C8, refuted as stated: `Past` fails with the server's status-500 error (the answer
arrives after the first timer of its `get`), `Upcoming` succeeds and `All` takes its
response, then the timer of `All` fires before the failure of `Past` is delivered, and
`All` returns (nil, nil, "API Request Timeout"), not the error of the failed
sub-fetch. -/
theorem all_returns_timer_error :
    (New 1 "k").Past brokenT 1 slowFailure
        = some ⟨none, some "API Error:500 Internal Server Error"⟩ ∧
    (New 1 "k").Upcoming soloT 1 soloSchedule
        = some ⟨some [(skEvent.withID 7).Event], none⟩ ∧
    (New 1 "k").All brokenT soloT 1 slowFailure soloSchedule [.future, .timeout]
        = some ⟨none, none, some "API Request Timeout"⟩ ∧
    "API Request Timeout" ≠ "API Error:500 Internal Server Error" :=
  ⟨rfl, rfl, rfl, by decide⟩

/-- C8, amended. Whatever `Calendar.All(limit)` returns, it is either (upcoming events,
past events, nil), and then both `Upcoming(limit)` and `Past(limit)` succeeded with
exactly these events, or (nil, nil, err), where err is the error of a sub-fetch that
failed or the error "API Request Timeout" of the timer of `All`; if either sub-fetch
fails, the return is of the second kind whatever the outcome of the other sub-fetch;
and when `All` takes the response of a failed sub-fetch it returns at once with that
error. -/
theorem all_joins_or_fails (c : Calendar) (Tpast Tfuture : Transport) (limit : Int)
    (pastRun futureRun : List Action) (sched : List AllAction) (r : allResult)
    (h : c.All Tpast Tfuture limit pastRun futureRun sched = some r) :
    Joined (c.Past Tpast limit pastRun) (c.Upcoming Tfuture limit futureRun) r ∧
    (((∃ ev e, c.Past Tpast limit pastRun = some ⟨ev, some e⟩) ∨
      (∃ ev e, c.Upcoming Tfuture limit futureRun = some ⟨ev, some e⟩)) →
      r.upcoming = none ∧ r.past = none ∧ r.err ≠ none) ∧
    (∀ s ev e, s.returned = none →
      (s.pastTaken = false → c.Past Tpast limit pastRun = some ⟨ev, some e⟩ →
        All.step (c.Past Tpast limit pastRun) (c.Upcoming Tfuture limit futureRun) s .past
          = some { s with pastTaken := true, returned := some ⟨none, none, some e⟩ }) ∧
      (s.futureTaken = false → c.Upcoming Tfuture limit futureRun = some ⟨ev, some e⟩ →
        All.step (c.Past Tpast limit pastRun) (c.Upcoming Tfuture limit futureRun) s .future
          = some { s with futureTaken := true, returned := some ⟨none, none, some e⟩ })) := by
  have h0 : AllInv (c.Past Tpast limit pastRun) (c.Upcoming Tfuture limit futureRun)
      All.init := by
    refine ⟨?_, ?_, ?_⟩ <;> intro x hx <;> cases hx
  have hJ : Joined (c.Past Tpast limit pastRun) (c.Upcoming Tfuture limit futureRun) r := by
    unfold Calendar.All at h
    split at h
    · rename_i s hs
      exact (allInv_run sched h0 hs).2.2 r h
    · cases h
  refine ⟨hJ, ?_, ?_⟩
  · intro hfail
    rcases hJ with ⟨f, p, rfl, hf, hp⟩ | ⟨e, rfl, -⟩
    · rcases hfail with ⟨ev, e, he⟩ | ⟨ev, e, he⟩
      · rw [hp] at he; simp at he
      · rw [hf] at he; simp at he
    · exact ⟨rfl, rfl, by simp⟩
  · intro s ev e hr
    constructor
    · intro ht hp
      simp only [All.step, hr, ht, hp]
    · intro ht hf
      simp only [All.step, hr, ht, hf]

/-- Witness of the amended C8: both sub-fetches succeed against the one-entry provider
and `All` returns both results. -/
theorem all_joins_or_fails_witness :
    (New 1 "k").All soloT soloT 1 soloSchedule soloSchedule [.past, .future]
        = some ⟨some [(skEvent.withID 7).Event], some [(skEvent.withID 7).Event], none⟩ ∧
    Joined ((New 1 "k").Past soloT 1 soloSchedule) ((New 1 "k").Upcoming soloT 1 soloSchedule)
      ⟨some [(skEvent.withID 7).Event], some [(skEvent.withID 7).Event], none⟩ :=
  ⟨rfl,
    (all_joins_or_fails (New 1 "k") soloT soloT 1 soloSchedule soloSchedule [.past, .future]
      ⟨some [(skEvent.withID 7).Event], some [(skEvent.withID 7).Event], none⟩ rfl).1⟩

/-- C11, refuted as stated: the cursor after page 1 of the paging mock holds the 10
events of page 1; `next` succeeds on it and returns the cursor after page 2, whose
`Events` are the 10 events of page 2 alone, not the 10 old events followed by them. -/
theorem next_replaces_events :
    (cursorAt "u" all23 10 1).Events ≠ [] ∧
    ((cursorAt "u" all23 10 1).next (pagedT.httpGet 1) pagedT.jsonUnmarshal).result
      = some (.ok (cursorAt "u" all23 10 2)) ∧
    (cursorAt "u" all23 10 2).Events = (pageOf all23 10 2).Event ∧
    (cursorAt "u" all23 10 2).Events
      ≠ (cursorAt "u" all23 10 1).Events ++ (pageOf all23 10 2).Event := by
  refine ⟨by decide, rfl, rfl, ?_⟩
  intro h
  have := congrArg List.length h
  revert this
  decide

/-- C11, amended. For every cursor, with an empty or a non-empty `Events` buffer, a
successful `next` returns a new cursor whose `Events` are exactly the newly parsed
events of the fetched page (the buffer is replaced, not appended to), whose
TotalEntries, PerPage and Page are those of the response, and whose Endpoint is
unchanged. -/
theorem next_events_are_page (httpGet : String → httpReply)
    (jsonUnmarshal : Bytes → Except String resultsPage) (ac cal : skArtistCalendar)
    (h : (ac.next httpGet jsonUnmarshal).result = some (.ok cal)) :
    ∃ status data tmp,
      httpGet ac.incr.url = .response 200 status (.ok data) ∧
      jsonUnmarshal data = .ok tmp ∧
      cal.Events = tmp.Event ∧ cal.TotalEntries = tmp.TotalEntries ∧
      cal.PerPage = tmp.PerPage ∧ cal.Page = tmp.Page ∧ cal.Endpoint = ac.Endpoint := by
  obtain ⟨_, status, data, tmp, hg, hj, rfl⟩ := next_ok h
  exact ⟨status, data, tmp, hg, hj, rfl, rfl, rfl, rfl, rfl⟩

/-- Witness of the amended C11: page 2 of the paging mock on the cursor after page 1. -/
theorem next_events_are_page_witness :
    ∃ status data tmp,
      pagedT.httpGet 1 (cursorAt "u" all23 10 1).incr.url = .response 200 status (.ok data) ∧
      pagedT.jsonUnmarshal data = .ok tmp ∧
      (cursorAt "u" all23 10 2).Events = tmp.Event ∧
      (cursorAt "u" all23 10 2).TotalEntries = tmp.TotalEntries ∧
      (cursorAt "u" all23 10 2).PerPage = tmp.PerPage ∧
      (cursorAt "u" all23 10 2).Page = tmp.Page ∧
      (cursorAt "u" all23 10 2).Endpoint = (cursorAt "u" all23 10 1).Endpoint :=
  next_events_are_page (pagedT.httpGet 1) pagedT.jsonUnmarshal (cursorAt "u" all23 10 1)
    (cursorAt "u" all23 10 2) rfl

/-- A string has positive length exactly when it is not empty. -/
theorem length_pos_iff_nonempty (s : String) : s.length > 0 ↔ s ≠ "" := by
  rw [← not_iff_not, not_not, ← length_lt_one_iff_empty]
  omega

/-- C12, refuted as stated: the wire date carries a parseable date-only value and a
timestamp that does not parse (the text "TBA"); both forms are present, no timestamp is
used, and decoding fails with the parse error of the timestamp instead of falling back
to the date. -/
theorem date_fallback_not_taken :
    vagueDate.Date ≠ "" ∧ vagueDate.DateTime ≠ "" ∧
    parseSample dateLayout vagueDate.Date = .ok ⟨63502963200000000000, 0⟩ ∧
    (∃ e, parseSample datetimeLayout vagueDate.DateTime = .error e ∧
      skDate.UnmarshalJSON (fun _ => vagueDate) parseSample [] = .error e) :=
  ⟨by decide, by decide, rfl, ⟨_, rfl, rfl⟩⟩

/-- C12, amended. `skDate.UnmarshalJSON` chooses the form by presence: when the
timestamp is present (non-empty) the outcome is that of parsing the timestamp, its
parse error included, whatever the date-only value; when the timestamp is absent and
the date-only value is present the outcome is that of parsing the date; when neither is
present decoding fails with "No Date or Datetime".  Hence decoding fails exactly when
the form chosen does not parse or neither form is present. -/
theorem date_decoded_by_presence (jsonUnmarshal : Bytes → rawDate)
    (timeParse : String → String → Except String Time) (data : Bytes) :
    ((jsonUnmarshal data).DateTime ≠ "" →
      skDate.UnmarshalJSON jsonUnmarshal timeParse data
        = timeParse datetimeLayout (jsonUnmarshal data).DateTime) ∧
    ((jsonUnmarshal data).DateTime = "" → (jsonUnmarshal data).Date ≠ "" →
      skDate.UnmarshalJSON jsonUnmarshal timeParse data
        = timeParse dateLayout (jsonUnmarshal data).Date) ∧
    ((jsonUnmarshal data).DateTime = "" → (jsonUnmarshal data).Date = "" →
      skDate.UnmarshalJSON jsonUnmarshal timeParse data = .error "No Date or Datetime") ∧
    ((∃ e, skDate.UnmarshalJSON jsonUnmarshal timeParse data = .error e) ↔
      ((jsonUnmarshal data).DateTime ≠ "" ∧
        ∃ e, timeParse datetimeLayout (jsonUnmarshal data).DateTime = .error e) ∨
      ((jsonUnmarshal data).DateTime = "" ∧ (jsonUnmarshal data).Date ≠ "" ∧
        ∃ e, timeParse dateLayout (jsonUnmarshal data).Date = .error e) ∨
      ((jsonUnmarshal data).DateTime = "" ∧ (jsonUnmarshal data).Date = "")) := by
  have h1 : (jsonUnmarshal data).DateTime ≠ "" →
      skDate.UnmarshalJSON jsonUnmarshal timeParse data
        = timeParse datetimeLayout (jsonUnmarshal data).DateTime := by
    intro h
    have hl := (length_pos_iff_nonempty _).mpr h
    simp only [skDate.UnmarshalJSON, hl, if_true]
    cases timeParse datetimeLayout (jsonUnmarshal data).DateTime <;> rfl
  have h2 : (jsonUnmarshal data).DateTime = "" → (jsonUnmarshal data).Date ≠ "" →
      skDate.UnmarshalJSON jsonUnmarshal timeParse data
        = timeParse dateLayout (jsonUnmarshal data).Date := by
    intro h hd
    have hl : ¬ (jsonUnmarshal data).DateTime.length > 0 := by
      rw [length_pos_iff_nonempty]; exact fun hn => hn h
    have hdl := (length_pos_iff_nonempty _).mpr hd
    simp only [skDate.UnmarshalJSON, hl, hdl, if_true, if_false]
    cases timeParse dateLayout (jsonUnmarshal data).Date <;> rfl
  have h3 : (jsonUnmarshal data).DateTime = "" → (jsonUnmarshal data).Date = "" →
      skDate.UnmarshalJSON jsonUnmarshal timeParse data
        = .error "No Date or Datetime" := by
    intro h hd
    have hl : ¬ (jsonUnmarshal data).DateTime.length > 0 := by
      rw [length_pos_iff_nonempty]; exact fun hn => hn h
    have hdl : ¬ (jsonUnmarshal data).Date.length > 0 := by
      rw [length_pos_iff_nonempty]; exact fun hn => hn hd
    simp only [skDate.UnmarshalJSON, hl, hdl, if_false]
  refine ⟨h1, h2, h3, ?_⟩
  by_cases ht : (jsonUnmarshal data).DateTime = ""
  · by_cases hd : (jsonUnmarshal data).Date = ""
    · rw [h3 ht hd]
      exact ⟨fun _ => Or.inr (Or.inr ⟨ht, hd⟩), fun _ => ⟨_, rfl⟩⟩
    · rw [h2 ht hd]
      constructor
      · intro he
        exact Or.inr (Or.inl ⟨ht, hd, he⟩)
      · rintro (⟨hn, -⟩ | ⟨-, -, he⟩ | ⟨-, hn⟩)
        · exact absurd ht hn
        · exact he
        · exact absurd hn hd
  · rw [h1 ht]
    constructor
    · intro he
      exact Or.inl ⟨ht, he⟩
    · rintro (⟨-, he⟩ | ⟨hn, -⟩ | ⟨hn, -⟩)
      · exact he
      · exact absurd hn ht
      · exact absurd hn ht

/-- C13, refuted as stated: a wire event that starts on 1700-01-01 and ends on
2013-05-01 has two non-zero dates, 9887702400000000000 nanoseconds apart, and the
Duration of its Event is 9223372036854775807, the largest `time.Duration`, not the
difference of the dates. -/
theorem event_duration_not_difference :
    centuries.Event.StartDate.nanos ≠ 0 ∧ centuries.Event.EndDate.nanos ≠ 0 ∧
    centuries.Event.EndDate.nanos - centuries.Event.StartDate.nanos
      = 9887702400000000000 ∧
    centuries.Event.Duration = 9223372036854775807 ∧
    centuries.Event.Duration
      ≠ centuries.Event.EndDate.nanos - centuries.Event.StartDate.nanos := by
  refine ⟨by decide, by decide, by decide, rfl, by decide⟩

/-- C13, amended. For every wire event the dates of `skEvent.Event()` are those of the
wire event, and its Duration is EndDate minus StartDate in nanoseconds, cut off at the
ends -9223372036854775808 and 9223372036854775807 of the range of a `time.Duration`
(so it is the exact difference for dates less than about 292 years apart), when both
dates are non-zero, and zero when either date is the zero instant; in particular a wire
event without end date, whatever its start, yields an Event with zero EndDate and zero
Duration, as the club night with a full timestamp start does, while the two-day
festival has the Duration 172800000000000. -/
theorem event_duration_saturated (ske : skEvent) :
    ske.Event.StartDate = ske.Start ∧ ske.Event.EndDate = ske.End ∧
    (ske.Event.StartDate.nanos ≠ 0 → ske.Event.EndDate.nanos ≠ 0 →
      ske.Event.Duration =
        max (-9223372036854775808)
          (min 9223372036854775807
            (ske.Event.EndDate.nanos - ske.Event.StartDate.nanos))) ∧
    (ske.Event.StartDate.nanos ≠ 0 → ske.Event.EndDate.nanos ≠ 0 →
      -9223372036854775808 ≤ ske.Event.EndDate.nanos - ske.Event.StartDate.nanos →
      ske.Event.EndDate.nanos - ske.Event.StartDate.nanos ≤ 9223372036854775807 →
      ske.Event.Duration = ske.Event.EndDate.nanos - ske.Event.StartDate.nanos) ∧
    (ske.Event.StartDate.nanos = 0 ∨ ske.Event.EndDate.nanos = 0 →
      ske.Event.Duration = 0) ∧
    (ske.End = ⟨0, 0⟩ → ske.Event.EndDate = ⟨0, 0⟩ ∧ ske.Event.Duration = 0) ∧
    (clubNight.Event.StartDate = ⟨63503064000000000000, -28800⟩ ∧
      clubNight.Event.EndDate = ⟨0, 0⟩ ∧ clubNight.Event.Duration = 0) ∧
    (festival.Event.StartDate.nanos = 63502963200000000000 ∧
      festival.Event.EndDate.nanos = 63503136000000000000 ∧
      festival.Event.Duration = 172800000000000) := by
  have hd : ske.Event.Duration =
      (if ske.Start.nanos ≠ 0 ∧ ske.End.nanos ≠ 0 then
        (if ske.End.nanos - ske.Start.nanos < -9223372036854775808 then -9223372036854775808
          else if ske.End.nanos - ske.Start.nanos > 9223372036854775807 then
            9223372036854775807
          else ske.End.nanos - ske.Start.nanos)
        else 0) := by
    simp only [skEvent.Event, Time.IsZero, Time.Sub, minDuration, maxDuration]
    by_cases hs : ske.Start.nanos = 0 <;> by_cases he : ske.End.nanos = 0 <;> simp [hs, he]
  have hS : ske.Event.StartDate = ske.Start := rfl
  have hE : ske.Event.EndDate = ske.End := rfl
  refine ⟨rfl, rfl, ?_, ?_, ?_, ?_, ⟨rfl, rfl, rfl⟩, ⟨rfl, rfl, rfl⟩⟩
  · intro hs he
    rw [hS] at hs
    rw [hE] at he
    rw [hd, hS, hE, if_pos ⟨hs, he⟩]
    split_ifs <;> omega
  · intro hs he hlo hhi
    rw [hS] at hs hlo hhi
    rw [hE] at he hlo hhi
    rw [hd, hS, hE, if_pos ⟨hs, he⟩]
    split_ifs <;> omega
  · intro hz
    rw [hS, hE] at hz
    rw [hd]
    rcases hz with hz | hz
    · rw [if_neg (fun h => h.1 hz)]
    · rw [if_neg (fun h => h.2 hz)]
  · intro hz
    refine ⟨hz, ?_⟩
    rw [hd, hz]
    simp

/-- C14. For every wire event `skEvent.Event()` sets Type to Festival when the wire
type string is exactly "Festival" and to Concert for every other string, among them
"Concert", the empty string of a missing value and unknown values such as "Club"; it
never produces ListeningRoom or Club. -/
theorem event_type (ske : skEvent) :
    (ske.Type_ = "Festival" → ske.Event.Type_ = EventType.Festival) ∧
    (ske.Type_ ≠ "Festival" → ske.Event.Type_ = EventType.Concert) ∧
    ske.Event.Type_ ≠ EventType.ListeningRoom ∧ ske.Event.Type_ ≠ EventType.Club ∧
    ({ ske with Type_ := "Concert" } : skEvent).Event.Type_ = EventType.Concert ∧
    ({ ske with Type_ := "" } : skEvent).Event.Type_ = EventType.Concert ∧
    ({ ske with Type_ := "Club" } : skEvent).Event.Type_ = EventType.Concert ∧
    clubNight.Event.Type_ = EventType.Concert := by
  have ht : ske.Event.Type_ =
      (if ske.Type_ = "Festival" then EventType.Festival else EventType.Concert) := by
    simp only [skEvent.Event]
    by_cases hc : ske.Type_ = "Concert"
    · have : ¬ ske.Type_ = "Festival" := by rw [hc]; decide
      simp [hc]
    · simp [hc]
  refine ⟨?_, ?_, ?_, ?_, rfl, rfl, rfl, rfl⟩
  · intro h; rw [ht, if_pos h]
  · intro h; rw [ht, if_neg h]
  · rw [ht]; split_ifs <;> decide
  · rw [ht]; split_ifs <;> decide

end shows

